import Mathlib

/-!
Verification of the ChatKit session backend (Go) against its specification.

The repository contains several historical variants of the same small HTTP
relay.  The shallow embedding below models, at the level of characters and
JSON values, the parts of the program the claims are about:

* the JSON decoding performed by `encoding/json`'s `Decoder.Decode` with and
  without `DisallowUnknownFields` (a `Decode` call reads exactly the first
  JSON value of the stream; trailing bytes are left unread),
* the three variants of the session handler:
  - `handleSessionFixed` models `handleSession` from `handlers.go`
    (identical to the third `main.go` variant): the request body carries only
    `user`; workflow id, expiry and rate limit come from server config,
  - `handleSessionClient` models `handleSession` of the first `main.go`
    variant: `user`, `workflow_id`, `expires_after_seconds` and
    `rate_limit_per_minute` are client supplied, zero resolves to defaults,
  - `handleSessionLegacy` models the inline handler of the second (oldest)
    `main.go` variant: same fields, but no `DisallowUnknownFields` and no
    `MaxBytesReader`,
* the CORS middleware, which exists in the repository only through its tests
  (`newCORSPolicy` / `withCORS` in `src/unnamed/part_000`); it is modelled
  from the specification.

Machine integers (`int64`) are modelled as `Int` with explicit range checks
where Go's decoder checks them.  The session-creation gateway is an abstract
function argument, exactly as the Go code injects it (`sessionCreator`).
-/

set_option maxRecDepth 20000

/-! ## JSON values and the character-level parser

Models the subset of `encoding/json` behaviour exercised by
`json.NewDecoder(r.Body).Decode(&payload)`: a single JSON value is read from
the stream and anything after it is left unread.  Numbers keep their source
literal, since Go decodes a number into an `int64` field by running
`strconv.ParseInt` on the literal. -/

inductive JsonVal where
  | null : JsonVal
  | bool (b : Bool) : JsonVal
  | str (s : String) : JsonVal
  | num (lit : String) : JsonVal
  | arr (elems : List JsonVal) : JsonVal
  | obj (fields : List (String × JsonVal)) : JsonVal

/-- JSON whitespace as accepted by the Go scanner: space, tab, newline, return. -/
def isJsonWs (c : Char) : Bool :=
  c = ' ' || c = '\t' || c = '\n' || c = '\r'

/-- Drop leading JSON whitespace. -/
def skipWs : List Char → List Char
  | [] => []
  | c :: cs => if isJsonWs c then skipWs cs else c :: cs

/-- Value of a hexadecimal digit, as accepted in a `\uXXXX` escape. -/
def hexVal (c : Char) : Option Nat :=
  if '0' ≤ c ∧ c ≤ '9' then some (c.toNat - 48)
  else if 'a' ≤ c ∧ c ≤ 'f' then some (c.toNat - 97 + 10)
  else if 'A' ≤ c ∧ c ≤ 'F' then some (c.toNat - 65 + 10)
  else none

def isHighSurrogate (n : Nat) : Bool := 0xD800 ≤ n ∧ n ≤ 0xDBFF

def isLowSurrogate (n : Nat) : Bool := 0xDC00 ≤ n ∧ n ≤ 0xDFFF

/-- Unicode replacement character, written by Go for unpaired surrogates. -/
def uFFFD : Char := Char.ofNat 0xFFFD

/-- Given a decoded high surrogate `n`, inspect the input for a following
`\uXXXX` low surrogate, as Go's `unquoteBytes` does: on success the pair is
combined and both escapes are consumed, otherwise a replacement character is
produced and only the first escape was consumed (the input is returned
unchanged). -/
def surrPair (n : Nat) (cs : List Char) : Char × List Char :=
  match cs with
  | '\\' :: 'u' :: g1 :: g2 :: g3 :: g4 :: cs4 =>
    match hexVal g1, hexVal g2, hexVal g3, hexVal g4 with
    | some a, some b, some c, some d =>
      let m := ((a * 16 + b) * 16 + c) * 16 + d
      if isLowSurrogate m then
        (Char.ofNat (0x10000 + (n - 0xD800) * 0x400 + (m - 0xDC00)), cs4)
      else (uFFFD, cs)
    | _, _, _, _ => (uFFFD, cs)
  | _ => (uFFFD, cs)

/-- Parse the remainder of a JSON string (the opening quote has already been
consumed), decoding escape sequences as Go's scanner plus `unquoteBytes` do.
`acc` holds the decoded characters in reverse.  The fuel argument only
bounds the recursion; every step consumes at least one input character, so
`length + 1` fuel always suffices. -/
def parseStrAux : Nat → List Char → List Char → Option (String × List Char)
  | 0, _, _ => none
  | _ + 1, _, [] => none
  | f + 1, acc, c :: cs =>
    if c = '"' then some (String.mk acc.reverse, cs)
    else if c = '\\' then
      match cs with
      | [] => none
      | e :: cs2 =>
        if e = '"' then parseStrAux f ('"' :: acc) cs2
        else if e = '\\' then parseStrAux f ('\\' :: acc) cs2
        else if e = '/' then parseStrAux f ('/' :: acc) cs2
        else if e = 'b' then parseStrAux f (Char.ofNat 8 :: acc) cs2
        else if e = 'f' then parseStrAux f (Char.ofNat 12 :: acc) cs2
        else if e = 'n' then parseStrAux f ('\n' :: acc) cs2
        else if e = 'r' then parseStrAux f ('\r' :: acc) cs2
        else if e = 't' then parseStrAux f ('\t' :: acc) cs2
        else if e = 'u' then
          match cs2 with
          | h1 :: h2 :: h3 :: h4 :: cs3 =>
            match hexVal h1, hexVal h2, hexVal h3, hexVal h4 with
            | some a, some b, some c3, some d =>
              let n := ((a * 16 + b) * 16 + c3) * 16 + d
              if isHighSurrogate n then
                parseStrAux f ((surrPair n cs3).1 :: acc) (surrPair n cs3).2
              else if isLowSurrogate n then parseStrAux f (uFFFD :: acc) cs3
              else parseStrAux f (Char.ofNat n :: acc) cs3
            | _, _, _, _ => none
          | _ => none
        else none
    else if c.toNat < 0x20 then none
    else parseStrAux f (c :: acc) cs

/-- Lex a JSON string (after its opening quote), with always-sufficient fuel. -/
def parseStr (cs : List Char) : Option (String × List Char) :=
  parseStrAux (cs.length + 1) [] cs

/-- Leading minus sign of a JSON number. -/
def numSign : List Char → List Char × List Char
  | [] => ([], [])
  | c :: r => if c = '-' then (['-'], r) else ([], c :: r)

/-- Integer part of a JSON number: `0`, or a nonzero digit followed by digits. -/
def numIntPart : List Char → Option (List Char × List Char)
  | [] => none
  | c :: r =>
    if c = '0' then some (['0'], r)
    else if c.isDigit then some (c :: r.takeWhile Char.isDigit, r.dropWhile Char.isDigit)
    else none

/-- One or more digits after the decimal point. -/
def numFracDigits : List Char → Option (List Char × List Char)
  | [] => none
  | d :: r2 =>
    if d.isDigit then some ('.' :: d :: r2.takeWhile Char.isDigit, r2.dropWhile Char.isDigit)
    else none

/-- Optional fraction part of a JSON number: `.` followed by one or more digits. -/
def numFracPart : List Char → Option (List Char × List Char)
  | [] => some ([], [])
  | c :: r => if c = '.' then numFracDigits r else some ([], c :: r)

/-- Digits of the exponent, after `e`/`E` and an optional sign. -/
def numExpDigits (pre : List Char) : List Char → Option (List Char × List Char)
  | [] => none
  | d :: r3 =>
    if d.isDigit then some (pre ++ d :: r3.takeWhile Char.isDigit, r3.dropWhile Char.isDigit)
    else none

/-- Sign and digits of the exponent, after `e`/`E`. -/
def numExpTail (c : Char) : List Char → Option (List Char × List Char)
  | [] => none
  | s :: r2 =>
    if s = '+' ∨ s = '-' then numExpDigits [c, s] r2
    else numExpDigits [c] (s :: r2)

/-- Optional exponent part: `e` or `E`, optional sign, one or more digits. -/
def numExpPart : List Char → Option (List Char × List Char)
  | [] => some ([], [])
  | c :: r => if c = 'e' ∨ c = 'E' then numExpTail c r else some ([], c :: r)

/-- Lex a JSON number, returning its source literal, per the Go scanner's
number states. -/
def numLex (cs : List Char) : Option (String × List Char) :=
  match numIntPart (numSign cs).2 with
  | none => none
  | some (ip, cs2) =>
    match numFracPart cs2 with
    | none => none
    | some (fp, cs3) =>
      match numExpPart cs3 with
      | none => none
      | some (ep, cs4) => some (String.mk ((numSign cs).1 ++ ip ++ fp ++ ep), cs4)

mutual

/-- Parse one JSON value, per the Go scanner.  The fuel argument only bounds
the recursion depth of the mutual definitions; every recursive call spends
one unit. -/
def parseVal : Nat → List Char → Option (JsonVal × List Char)
  | 0, _ => none
  | f + 1, cs =>
    match skipWs cs with
    | [] => none
    | c :: r =>
      if c = Char.ofNat 123 then parseObjBody f r
      else if c = '[' then parseArrBody f r
      else if c = '"' then
        match parseStr r with
        | some (s, r2) => some (JsonVal.str s, r2)
        | none => none
      else if c = 't' then
        match r with
        | c1 :: c2 :: c3 :: r2 =>
          if c1 = 'r' ∧ c2 = 'u' ∧ c3 = 'e' then some (JsonVal.bool true, r2) else none
        | _ => none
      else if c = 'f' then
        match r with
        | c1 :: c2 :: c3 :: c4 :: r2 =>
          if c1 = 'a' ∧ c2 = 'l' ∧ c3 = 's' ∧ c4 = 'e' then some (JsonVal.bool false, r2)
          else none
        | _ => none
      else if c = 'n' then
        match r with
        | c1 :: c2 :: c3 :: r2 =>
          if c1 = 'u' ∧ c2 = 'l' ∧ c3 = 'l' then some (JsonVal.null, r2) else none
        | _ => none
      else if c = '-' ∨ c.isDigit then
        match numLex (c :: r) with
        | some (lit, r2) => some (JsonVal.num lit, r2)
        | none => none
      else none

/-- Parse an object body (the opening brace has been consumed). -/
def parseObjBody : Nat → List Char → Option (JsonVal × List Char)
  | 0, _ => none
  | f + 1, cs =>
    match skipWs cs with
    | [] => none
    | c :: r =>
      if c = Char.ofNat 125 then some (JsonVal.obj [], r)
      else parseMembers f (c :: r) []

/-- Parse one or more `"key": value` members followed by `}`. -/
def parseMembers : Nat → List Char → List (String × JsonVal) → Option (JsonVal × List Char)
  | 0, _, _ => none
  | f + 1, cs, acc =>
    match skipWs cs with
    | [] => none
    | c :: r =>
      if c = '"' then
        match parseStr r with
        | some (k, r2) =>
          match skipWs r2 with
          | [] => none
          | c2 :: r3 =>
            if c2 = ':' then
              match parseVal f r3 with
              | some (v, r4) =>
                match skipWs r4 with
                | [] => none
                | c4 :: r5 =>
                  if c4 = ',' then parseMembers f r5 (acc ++ [(k, v)])
                  else if c4 = Char.ofNat 125 then some (JsonVal.obj (acc ++ [(k, v)]), r5)
                  else none
              | none => none
            else none
        | none => none
      else none

/-- Parse an array body (the opening bracket has been consumed). -/
def parseArrBody : Nat → List Char → Option (JsonVal × List Char)
  | 0, _ => none
  | f + 1, cs =>
    match skipWs cs with
    | [] => none
    | c :: r =>
      if c = ']' then some (JsonVal.arr [], r)
      else parseElems f (c :: r) []

/-- Parse one or more array elements followed by `]`. -/
def parseElems : Nat → List Char → List JsonVal → Option (JsonVal × List Char)
  | 0, _, _ => none
  | f + 1, cs, acc =>
    match parseVal f cs with
    | some (v, r) =>
      match skipWs r with
      | [] => none
      | c :: r2 =>
        if c = ',' then parseElems f r2 (acc ++ [v])
        else if c = ']' then some (JsonVal.arr (acc ++ [v]), r2)
        else none
    | none => none

end

/-- Fuel that is always sufficient for `parseVal` on `cs`: at most two mutual
calls are made per consumed character. -/
def fuelFor (cs : List Char) : Nat := 2 * cs.length + 8

/-- Model of a single `json.Decoder.Decode` call on the request body: the
first JSON value is read and the rest of the stream is left unread.  (Go's
`readValue` stops at the closing delimiter of a composite value, and for a
top-level literal it stops at the first byte after it, recording any
complaint about that byte only for a subsequent `Decode` call, which the
handlers never make.) -/
def parseOne (cs : List Char) : Option (JsonVal × List Char) := parseVal (fuelFor cs) cs

/-! ## Decoding into the request structs

`json.Decoder.Decode(&payload)` with a struct target: a JSON `null` leaves
the zero-valued struct unchanged; a JSON object is folded field by field in
order of appearance (later duplicates overwrite); any other value is a type
error.  A key matches a struct field by its json tag, case-insensitively
(`strings.EqualFold`); with `DisallowUnknownFields` a key matching no field
is an error, otherwise it is skipped.  A string field accepts a JSON string
or null; an `int64` field accepts a JSON number whose literal passes
`strconv.ParseInt(lit, 10, 64)` (no fraction or exponent, within the int64
range), or null. -/

/-- Case folding as `strings.EqualFold` applies it to the ASCII json tags of
the request structs (ASCII letters, plus the two Unicode characters whose
simple fold lands in ASCII: Kelvin sign and long s). -/
def foldLower (c : Char) : Char :=
  if 65 ≤ c.toNat ∧ c.toNat ≤ 90 then Char.ofNat (c.toNat + 32)
  else if c.toNat = 0x212A then 'k'
  else if c.toNat = 0x017F then 's'
  else c

def equalFoldGo (a b : String) : Bool :=
  a.data.map foldLower == b.data.map foldLower

/-- `strconv.ParseInt(lit, 10, 64)` on a JSON number literal. -/
def digitsToNat : List Char → Nat → Nat
  | [], acc => acc
  | c :: cs, acc => digitsToNat cs (acc * 10 + (c.toNat - 48))

def litToInt64 (lit : String) : Option Int :=
  if lit.data.any (fun c => c = '.' || c = 'e' || c = 'E') then none
  else
    match lit.data with
    | '-' :: ds =>
      let n : Int := -(digitsToNat ds 0 : Int)
      if -(2 ^ 63) ≤ n then some n else none
    | ds =>
      let n : Int := (digitsToNat ds 0 : Int)
      if n ≤ 2 ^ 63 - 1 then some n else none

/-- The `sessionRequest` struct of the first (client-supplied-with-defaults)
and second (legacy) `main.go` variants. -/
structure SessionRequestFull where
  user : String
  workflowID : String
  expiresAfterSeconds : Int
  rateLimitPerMinute : Int
deriving DecidableEq

/-- The `sessionRequest` struct of `handlers.go` and of the third `main.go`
variant: only `user` is client supplied. -/
structure SessionRequestUser where
  user : String
deriving DecidableEq

/-- Decoding of a JSON value into a Go `string` struct field: a string sets
it, null leaves it, anything else is a type error. -/
def decodeStrField : JsonVal → Option (Option String)
  | JsonVal.str s => some (some s)
  | JsonVal.null => some none
  | _ => none

/-- Decoding of a JSON value into a Go `int64` struct field: a number whose
literal passes `strconv.ParseInt` sets it, null leaves it, anything else is
a type error. -/
def decodeIntField : JsonVal → Option (Option Int)
  | JsonVal.num lit =>
    match litToInt64 lit with
    | some n => some (some n)
    | none => none
  | JsonVal.null => some none
  | _ => none

def assignFull (strict : Bool) (p : SessionRequestFull) (k : String) (v : JsonVal) :
    Option SessionRequestFull :=
  if equalFoldGo k "user" then
    (decodeStrField v).map (fun o =>
      match o with
      | some s => { p with user := s }
      | none => p)
  else if equalFoldGo k "workflow_id" then
    (decodeStrField v).map (fun o =>
      match o with
      | some s => { p with workflowID := s }
      | none => p)
  else if equalFoldGo k "expires_after_seconds" then
    (decodeIntField v).map (fun o =>
      match o with
      | some n => { p with expiresAfterSeconds := n }
      | none => p)
  else if equalFoldGo k "rate_limit_per_minute" then
    (decodeIntField v).map (fun o =>
      match o with
      | some n => { p with rateLimitPerMinute := n }
      | none => p)
  else if strict then none
  else some p

def decodeFieldsFull (strict : Bool) : SessionRequestFull → List (String × JsonVal) →
    Option SessionRequestFull
  | p, [] => some p
  | p, (k, v) :: rest =>
    match assignFull strict p k v with
    | some p2 => decodeFieldsFull strict p2 rest
    | none => none

def decodeFull (strict : Bool) : JsonVal → Option SessionRequestFull
  | JsonVal.null => some ⟨"", "", 0, 0⟩
  | JsonVal.obj fields => decodeFieldsFull strict ⟨"", "", 0, 0⟩ fields
  | _ => none

def assignUser (strict : Bool) (p : SessionRequestUser) (k : String) (v : JsonVal) :
    Option SessionRequestUser :=
  if equalFoldGo k "user" then
    (decodeStrField v).map (fun o =>
      match o with
      | some s => { p with user := s }
      | none => p)
  else if strict then none
  else some p

def decodeFieldsUser (strict : Bool) : SessionRequestUser → List (String × JsonVal) →
    Option SessionRequestUser
  | p, [] => some p
  | p, (k, v) :: rest =>
    match assignUser strict p k v with
    | some p2 => decodeFieldsUser strict p2 rest
    | none => none

def decodeUser (strict : Bool) : JsonVal → Option SessionRequestUser
  | JsonVal.null => some ⟨""⟩
  | JsonVal.obj fields => decodeFieldsUser strict ⟨""⟩ fields
  | _ => none

/-- Keys the full request schema accepts (case-insensitively). -/
def matchesFullSchema (k : String) : Bool :=
  equalFoldGo k "user" || equalFoldGo k "workflow_id" ||
  equalFoldGo k "expires_after_seconds" || equalFoldGo k "rate_limit_per_minute"

/-- Keys the user-only request schema accepts (case-insensitively). -/
def matchesUserSchema (k : String) : Bool := equalFoldGo k "user"

/-! ## The session handlers -/

/-- Parameters of the upstream session-creation call
(`openai.BetaChatKitSessionNewParams` as the handlers populate it). -/
structure GatewayParams where
  user : String
  workflowID : String
  expiresSeconds : Int
  expiryAnchor : String
  rateLimitPerMinute : Int
deriving DecidableEq

/-- Value of `constant.CreatedAt("").Default()` from the openai-go SDK: the
fixed expiry anchor "anchored to session-creation time". -/
def createdAtAnchor : String := "created_at"

/-- The injectable gateway (`sessionCreator` in `handlers.go`): returns the
session's client secret or an upstream error. -/
abbrev SessionCreator := GatewayParams → Except String String

/-- Status and body of the handler's HTTP response. -/
structure HttpResponse where
  status : Nat
  body : String
deriving DecidableEq

/-- What one request produces: the response written, and the parameters of
the gateway call if one was made (the handlers call the gateway at most
once). -/
structure HandlerOutcome where
  response : HttpResponse
  gatewayCall : Option GatewayParams
deriving DecidableEq

/-- Go's `http.Error(w, msg, code)`: writes the message plus a newline. -/
def httpError (msg : String) (code : Nat) : HttpResponse := ⟨code, msg ++ "\n"⟩

def maxRequestBodyBytes : Nat := 4096

def defaultExpiresAfterSecs : Int := 1200

def defaultRateLimitPerMin : Int := 10

def hexDigitChar (n : Nat) : Char :=
  if n < 10 then Char.ofNat (48 + n) else Char.ofNat (87 + n)

/-- Escaping applied by `encoding/json` (with its default HTML escaping) to
one character of a string being encoded. -/
def goEncodeStringChar (c : Char) : String :=
  if c = '"' then "\\\""
  else if c = '\\' then "\\\\"
  else if c = '\n' then "\\n"
  else if c = '\r' then "\\r"
  else if c = '\t' then "\\t"
  else if c = '<' then "\\u003c"
  else if c = '>' then "\\u003e"
  else if c = '&' then "\\u0026"
  else if c.toNat < 0x20 then
    String.mk ['\\', 'u', '0', '0', hexDigitChar (c.toNat / 16), hexDigitChar (c.toNat % 16)]
  else if c.toNat = 0x2028 then "\\u2028"
  else if c.toNat = 0x2029 then "\\u2029"
  else String.mk [c]

def goEncodeJsonString (s : String) : String :=
  "\"" ++ String.join (s.data.map goEncodeStringChar) ++ "\""

/-- Body written by `json.NewEncoder(w).Encode(map[string]string{"client_secret": secret})`:
the JSON object followed by the newline `Encode` always appends. -/
def clientSecretBody (secret : String) : String :=
  "\x7b\"client_secret\":" ++ goEncodeJsonString secret ++ "\x7d\n"

/-- Server-fixed configuration of the `sessionHandler` struct in
`handlers.go` (workflow id, expiry and rate limit come from the
environment, validated non-negative at startup). -/
structure FixedSessionConfig where
  workflowID : String
  expiresAfterSeconds : Int
  rateLimitPerMinute : Int
deriving DecidableEq

/-- Embeds `(*sessionHandler).handleSession` from `handlers.go` (the third
`main.go` variant is identical): POST only, body bounded by
`MaxBytesReader` (a decode succeeds only if the first JSON value completes
within the first 4096 bytes), strict decode of `{user}`, required non-empty
user, then the gateway call with server-fixed parameters. -/
def handleSessionFixed (h : FixedSessionConfig) (method : String) (body : List Char)
    (createSession : SessionCreator) : HandlerOutcome :=
  if method ≠ "POST" then ⟨⟨405, ""⟩, none⟩
  else
    match parseOne body with
    | none => ⟨httpError "invalid JSON" 400, none⟩
    | some (j, rest) =>
      if maxRequestBodyBytes < body.length - rest.length then ⟨httpError "invalid JSON" 400, none⟩
      else
        match decodeUser true j with
        | none => ⟨httpError "invalid JSON" 400, none⟩
        | some payload =>
          if payload.user = "" then ⟨httpError "user is required" 400, none⟩
          else
            let params : GatewayParams :=
              ⟨payload.user, h.workflowID, h.expiresAfterSeconds, createdAtAnchor,
                h.rateLimitPerMinute⟩
            match createSession params with
            | Except.error _ => ⟨httpError "failed to create session" 500, some params⟩
            | Except.ok session => ⟨⟨200, clientSecretBody session⟩, some params⟩

/-- Embeds `(*server).handleSession` of the first `main.go` variant
(client-supplied values with defaults): strict decode of the full schema,
required user and workflow_id, non-negative range checks, zero resolving to
the configured defaults. -/
def handleSessionClient (method : String) (body : List Char)
    (createSession : SessionCreator) : HandlerOutcome :=
  if method ≠ "POST" then ⟨⟨405, ""⟩, none⟩
  else
    match parseOne body with
    | none => ⟨httpError "invalid JSON" 400, none⟩
    | some (j, rest) =>
      if maxRequestBodyBytes < body.length - rest.length then ⟨httpError "invalid JSON" 400, none⟩
      else
        match decodeFull true j with
        | none => ⟨httpError "invalid JSON" 400, none⟩
        | some payload =>
          if payload.user = "" ∨ payload.workflowID = "" then
            ⟨httpError "user and workflow_id are required" 400, none⟩
          else if payload.expiresAfterSeconds < 0 then
            ⟨httpError "expires_after_seconds must be non-negative" 400, none⟩
          else if payload.rateLimitPerMinute < 0 then
            ⟨httpError "rate_limit_per_minute must be non-negative" 400, none⟩
          else
            let expiresAfter :=
              if payload.expiresAfterSeconds = 0 then defaultExpiresAfterSecs
              else payload.expiresAfterSeconds
            let rateLimit :=
              if payload.rateLimitPerMinute = 0 then defaultRateLimitPerMin
              else payload.rateLimitPerMinute
            let params : GatewayParams :=
              ⟨payload.user, payload.workflowID, expiresAfter, createdAtAnchor, rateLimit⟩
            match createSession params with
            | Except.error _ => ⟨httpError "failed to create session" 500, some params⟩
            | Except.ok session => ⟨⟨200, clientSecretBody session⟩, some params⟩

/-- Embeds the inline handler of the second (legacy) `main.go` variant: no
`MaxBytesReader`, a plain `json.NewDecoder(r.Body).Decode` WITHOUT
`DisallowUnknownFields`, the same validations and defaults, then an
`OPENAI_API_KEY` check before the upstream call. -/
def handleSessionLegacy (apiKeyPresent : Bool) (method : String) (body : List Char)
    (createSession : SessionCreator) : HandlerOutcome :=
  if method ≠ "POST" then ⟨⟨405, ""⟩, none⟩
  else
    match parseOne body with
    | none => ⟨httpError "invalid JSON" 400, none⟩
    | some (j, _) =>
      match decodeFull false j with
      | none => ⟨httpError "invalid JSON" 400, none⟩
      | some payload =>
        if payload.user = "" ∨ payload.workflowID = "" then
          ⟨httpError "user and workflow_id are required" 400, none⟩
        else if payload.expiresAfterSeconds < 0 then
          ⟨httpError "expires_after_seconds must be non-negative" 400, none⟩
        else if payload.rateLimitPerMinute < 0 then
          ⟨httpError "rate_limit_per_minute must be non-negative" 400, none⟩
        else if apiKeyPresent = false then
          ⟨httpError "missing OPENAI_API_KEY" 500, none⟩
        else
          let expiresAfter :=
            if payload.expiresAfterSeconds = 0 then defaultExpiresAfterSecs
            else payload.expiresAfterSeconds
          let rateLimit :=
            if payload.rateLimitPerMinute = 0 then defaultRateLimitPerMin
            else payload.rateLimitPerMinute
          let params : GatewayParams :=
            ⟨payload.user, payload.workflowID, expiresAfter, createdAtAnchor, rateLimit⟩
          match createSession params with
          | Except.error _ => ⟨httpError "failed to create session" 500, some params⟩
          | Except.ok session => ⟨⟨200, clientSecretBody session⟩, some params⟩

/-! ## The CORS middleware

The middleware itself (`newCORSPolicy`, `withCORS`) is code of this
repository that is not under `src/`: only its tests
(`src/unnamed/part_000`) are.  It is therefore modelled from the
specification (§4.1 OriginPolicy and §6). -/

/-- Modelled from the spec: the configured origin policy built by
`newCORSPolicy` (absent from `src/`) from the comma-separated allowed-origins
setting; `*` or the empty string configure the wildcard (allow-all). -/
structure CORSPolicy where
  wildcard : Bool
  allowedOrigins : List String
deriving DecidableEq

/-- Splits a character list at commas (the semantics of Go's
`strings.Split(s, ",")` for a non-empty separator), accumulating the
current piece in reverse. -/
def splitCommaAux (cur : List Char) : List Char → List String
  | [] => [String.mk cur.reverse]
  | c :: cs =>
    if c = ',' then String.mk cur.reverse :: splitCommaAux [] cs
    else splitCommaAux (c :: cur) cs

/-- Modelled from the spec: `newCORSPolicy` (absent from `src/`); the
allow-set is the comma-separated split of the setting. -/
def newCORSPolicy (s : String) : CORSPolicy :=
  if s = "*" ∨ s = "" then ⟨true, []⟩ else ⟨false, splitCommaAux [] s.data⟩

/-- Response of the CORS middleware for one request: status, the CORS
headers it sets, and whether the wrapped handler was invoked (when it is,
the status is the wrapped handler's). -/
structure CORSResponse where
  status : Nat
  allowOrigin : Option String
  varyOrigin : Bool
  allowMethods : Option String
  allowHeaders : Option String
  maxAge : Option String
  handlerInvoked : Bool
deriving DecidableEq

def corsAllowMethodsValue : String := "GET, POST, OPTIONS"

def corsAllowHeadersValue : String := "Content-Type, Authorization"

/-- Modelled from the spec: `withCORS` (absent from `src/`), §4.1.  Without
an Origin header the request passes through (except an OPTIONS preflight,
answered no-content); with wildcard configured every origin is allowed and
`*` is echoed; otherwise the origin must exactly match an allow-set entry,
else 403 without invoking the wrapped handler.  An allowed OPTIONS request
is answered 204 with the preflight headers, without invoking the wrapped
handler. -/
def withCORS (p : CORSPolicy) (method : String) (origin : Option String)
    (innerStatus : Nat) : CORSResponse :=
  match origin with
  | none =>
    if method = "OPTIONS" then ⟨204, none, false, none, none, none, false⟩
    else ⟨innerStatus, none, false, none, none, none, true⟩
  | some o =>
    let allowedValue : Option String :=
      if p.wildcard then some "*"
      else if o ∈ p.allowedOrigins then some o
      else none
    match allowedValue with
    | none => ⟨403, none, false, none, none, none, false⟩
    | some v =>
      if method = "OPTIONS" then
        ⟨204, some v, true, some corsAllowMethodsValue, some corsAllowHeadersValue,
          some "600", false⟩
      else ⟨innerStatus, some v, true, none, none, none, true⟩

/-- Boolean substring test (used to state what a response body contains). -/
def containsSubAux (needle : List Char) : List Char → Bool
  | [] => needle.isEmpty
  | c :: cs => needle.isPrefixOf (c :: cs) || containsSubAux needle cs

def containsSub (hay needle : String) : Bool := containsSubAux needle.data hay.data

/-! ## Prefix stability of the lexers

`Decoder.Decode` reads only the first JSON value of the stream, so parsing a
body must be unaffected by whatever follows that value.  The lemmas below
establish this for each lexer; for the number lexer the remainder must be
nonempty, since a number at the very end of the input would absorb appended
digits. -/

theorem skipWs_append_cons {s : List Char} {c : Char} {r : List Char} (t : List Char)
    (h : skipWs s = c :: r) : skipWs (s ++ t) = c :: (r ++ t) := by
  induction s with
  | nil => simp [skipWs] at h
  | cons a as ih =>
    simp only [skipWs] at h
    by_cases ha : isJsonWs a = true
    · rw [if_pos ha] at h
      simpa only [List.cons_append, skipWs, ha, if_true] using ih h
    · rw [if_neg ha] at h
      injection h with h1 h2
      subst h1
      subst h2
      simp [skipWs, ha]

theorem digitSpan_append {s : List Char} {c : Char} {r : List Char} (t : List Char)
    (h : s.dropWhile Char.isDigit = c :: r) :
    (s ++ t).takeWhile Char.isDigit = s.takeWhile Char.isDigit ∧
      (s ++ t).dropWhile Char.isDigit = c :: (r ++ t) := by
  have key : s.takeWhile Char.isDigit ++ s.dropWhile Char.isDigit = s :=
    List.takeWhile_append_dropWhile Char.isDigit s
  have hlen : (s.takeWhile Char.isDigit).length ≠ s.length := by
    have h2 := congrArg List.length key
    rw [h] at h2
    simp at h2
    omega
  constructor
  · rw [List.takeWhile_append, if_neg hlen]
  · rw [List.dropWhile_append, h]
    simp

theorem numSign_append {s sg : List Char} {c : Char} {r : List Char} (t : List Char)
    (h : numSign s = (sg, c :: r)) : numSign (s ++ t) = (sg, c :: (r ++ t)) := by
  cases s with
  | nil => simp [numSign] at h
  | cons a as =>
    simp only [numSign] at h
    by_cases ha : a = '-'
    · rw [if_pos ha] at h
      injection h with h1 h2
      subst h1
      subst ha
      rw [h2]
      simp [numSign]
    · rw [if_neg ha] at h
      injection h with h1 h2
      subst h1
      rw [List.cons_append, numSign, if_neg ha]
      injection h2 with h3 h4
      subst h3
      subst h4
      rfl

theorem numIntPart_append {s ip : List Char} {c : Char} {r : List Char} (t : List Char)
    (h : numIntPart s = some (ip, c :: r)) : numIntPart (s ++ t) = some (ip, c :: (r ++ t)) := by
  cases s with
  | nil => simp [numIntPart] at h
  | cons a as =>
    simp only [numIntPart] at h
    by_cases h0 : a = '0'
    · rw [if_pos h0] at h
      injection h with h1
      injection h1 with h2 h3
      subst h2
      subst h0
      rw [h3]
      simp [numIntPart]
    · rw [if_neg h0] at h
      by_cases hd : a.isDigit = true
      · rw [if_pos hd] at h
        injection h with h1
        injection h1 with h2 h3
        obtain ⟨htk, hdr⟩ := digitSpan_append t h3
        rw [List.cons_append, numIntPart, if_neg h0, if_pos hd, htk, hdr, h2]
      · rw [if_neg hd] at h
        exact absurd h (by simp)

theorem numFracDigits_append {s fp : List Char} {c : Char} {r : List Char} (t : List Char)
    (h : numFracDigits s = some (fp, c :: r)) : numFracDigits (s ++ t) = some (fp, c :: (r ++ t)) := by
  cases s with
  | nil => simp [numFracDigits] at h
  | cons d r2 =>
    simp only [numFracDigits] at h
    by_cases hd : d.isDigit = true
    · rw [if_pos hd] at h
      injection h with h1
      injection h1 with h2 h3
      obtain ⟨htk, hdr⟩ := digitSpan_append t h3
      rw [List.cons_append, numFracDigits, if_pos hd, htk, hdr, h2]
    · rw [if_neg hd] at h
      exact absurd h (by simp)

theorem numFracPart_append {s fp : List Char} {c : Char} {r : List Char} (t : List Char)
    (h : numFracPart s = some (fp, c :: r)) : numFracPart (s ++ t) = some (fp, c :: (r ++ t)) := by
  cases s with
  | nil => simp [numFracPart] at h
  | cons a as =>
    simp only [numFracPart] at h
    by_cases hdot : a = '.'
    · rw [if_pos hdot] at h
      rw [List.cons_append, numFracPart, if_pos hdot]
      exact numFracDigits_append t h
    · rw [if_neg hdot] at h
      injection h with h1
      injection h1 with h2 h3
      subst h2
      rw [List.cons_append, numFracPart, if_neg hdot]
      injection h3 with h4 h5
      subst h4
      subst h5
      rfl

theorem numExpDigits_append {pre s ep : List Char} {c : Char} {r : List Char} (t : List Char)
    (h : numExpDigits pre s = some (ep, c :: r)) :
    numExpDigits pre (s ++ t) = some (ep, c :: (r ++ t)) := by
  cases s with
  | nil => simp [numExpDigits] at h
  | cons d r3 =>
    simp only [numExpDigits] at h
    by_cases hd : d.isDigit = true
    · rw [if_pos hd] at h
      injection h with h1
      injection h1 with h2 h3
      obtain ⟨htk, hdr⟩ := digitSpan_append t h3
      rw [List.cons_append, numExpDigits, if_pos hd, htk, hdr, h2]
    · rw [if_neg hd] at h
      exact absurd h (by simp)

theorem numExpTail_append {s ep : List Char} {e c : Char} {r : List Char} (t : List Char)
    (h : numExpTail e s = some (ep, c :: r)) : numExpTail e (s ++ t) = some (ep, c :: (r ++ t)) := by
  cases s with
  | nil => simp [numExpTail] at h
  | cons s2 r2 =>
    simp only [numExpTail] at h
    by_cases hs : s2 = '+' ∨ s2 = '-'
    · rw [if_pos hs] at h
      rw [List.cons_append, numExpTail, if_pos hs]
      exact numExpDigits_append t h
    · rw [if_neg hs] at h
      rw [List.cons_append, numExpTail, if_neg hs]
      exact numExpDigits_append t (s := s2 :: r2) h
    
theorem numExpPart_append {s ep : List Char} {c : Char} {r : List Char} (t : List Char)
    (h : numExpPart s = some (ep, c :: r)) : numExpPart (s ++ t) = some (ep, c :: (r ++ t)) := by
  cases s with
  | nil => simp [numExpPart] at h
  | cons a as =>
    simp only [numExpPart] at h
    by_cases he : a = 'e' ∨ a = 'E'
    · rw [if_pos he] at h
      rw [List.cons_append, numExpPart, if_pos he]
      exact numExpTail_append t h
    · rw [if_neg he] at h
      injection h with h1
      injection h1 with h2 h3
      subst h2
      rw [List.cons_append, numExpPart, if_neg he]
      injection h3 with h4 h5
      subst h4
      subst h5
      rfl

theorem numLex_append {s : List Char} {lit : String} {c : Char} {r : List Char} (t : List Char)
    (h : numLex s = some (lit, c :: r)) : numLex (s ++ t) = some (lit, c :: (r ++ t)) := by
  simp only [numLex] at h
  cases hip : numIntPart (numSign s).2 with
  | none => rw [hip] at h; exact absurd h (by simp)
  | some v =>
    obtain ⟨ip, cs2⟩ := v
    rw [hip] at h; dsimp only at h
    cases hfp : numFracPart cs2 with
    | none => rw [hfp] at h; exact absurd h (by simp)
    | some w =>
      obtain ⟨fp, cs3⟩ := w
      rw [hfp] at h; dsimp only at h
      cases hep : numExpPart cs3 with
      | none => rw [hep] at h; exact absurd h (by simp)
      | some u =>
        obtain ⟨ep, cs4⟩ := u
        rw [hep] at h; dsimp only at h
        injection h with h1
        injection h1 with h2 h3
        subst h3
        have hcs3 : cs3 ≠ [] := by
          intro he
          subst he
          simp [numExpPart] at hep
        have hcs2 : cs2 ≠ [] := by
          intro he
          subst he
          simp [numFracPart] at hfp
          exact hcs3 hfp.2
        have hsg : (numSign s).2 ≠ [] := by
          intro he
          rw [he] at hip
          simp [numIntPart] at hip
        obtain ⟨c0, r0, hr0⟩ : ∃ c0 r0, (numSign s).2 = c0 :: r0 := by
          cases hx : (numSign s).2 with
          | nil => exact absurd hx hsg
          | cons x xs => exact ⟨x, xs, rfl⟩
        obtain ⟨c2, r2c, hr2⟩ : ∃ c2 r2c, cs2 = c2 :: r2c := by
          cases hx : cs2 with
          | nil => exact absurd hx hcs2
          | cons x xs => exact ⟨x, xs, rfl⟩
        obtain ⟨c3, r3c, hr3⟩ : ∃ c3 r3c, cs3 = c3 :: r3c := by
          cases hx : cs3 with
          | nil => exact absurd hx hcs3
          | cons x xs => exact ⟨x, xs, rfl⟩
        have hsgp : numSign s = ((numSign s).1, c0 :: r0) := by
          rw [Prod.ext_iff]
          exact ⟨rfl, hr0⟩
        have hsga := numSign_append t hsgp
        rw [hr0, hr2] at hip
        have hipa := numIntPart_append t hip
        rw [hr2, hr3] at hfp
        have hfpa := numFracPart_append t hfp
        rw [hr3] at hep
        have hepa := numExpPart_append t hep
        simp only [List.cons_append] at hipa hfpa hepa
        simp only [numLex, hsga, List.cons_append, hipa, hfpa, hepa, h2]

theorem surrPair_eq_fallback (n : Nat) (cs : List Char)
    (hshape : ∀ g1 g2 g3 g4 cs4, cs ≠ '\\' :: 'u' :: g1 :: g2 :: g3 :: g4 :: cs4) :
    surrPair n cs = (uFFFD, cs) := by
  unfold surrPair
  split
  · exact absurd rfl (hshape _ _ _ _ _)
  · rfl


theorem parseStrAux_mono : ∀ (f g : Nat), f ≤ g →
    ∀ (acc l : List Char) (x : String × List Char),
      parseStrAux f acc l = some x → parseStrAux g acc l = some x := by
  intro f
  induction f with
  | zero =>
    intro g _ acc l x h
    simp [parseStrAux] at h
  | succ f ih =>
    intro g hfg acc l x h
    match g, hfg with
    | g + 1, hfg =>
      have hfg2 : f ≤ g := Nat.le_of_succ_le_succ hfg
      cases l with
      | nil => simp [parseStrAux] at h
      | cons c cs =>
        simp only [parseStrAux] at h ⊢
        by_cases h1 : c = '"'
        · rwa [if_pos h1] at h ⊢
        · rw [if_neg h1] at h ⊢
          by_cases h2 : c = '\\'
          · rw [if_pos h2] at h ⊢
            cases cs with
            | nil => simp at h
            | cons e cs2 =>
              dsimp only at h ⊢
              by_cases e1 : e = '"'
              · rw [if_pos e1] at h ⊢
                exact ih g hfg2 _ _ _ h
              · rw [if_neg e1] at h ⊢
                by_cases e2 : e = '\\'
                · rw [if_pos e2] at h ⊢
                  exact ih g hfg2 _ _ _ h
                · rw [if_neg e2] at h ⊢
                  by_cases e3 : e = '/'
                  · rw [if_pos e3] at h ⊢
                    exact ih g hfg2 _ _ _ h
                  · rw [if_neg e3] at h ⊢
                    by_cases e4 : e = 'b'
                    · rw [if_pos e4] at h ⊢
                      exact ih g hfg2 _ _ _ h
                    · rw [if_neg e4] at h ⊢
                      by_cases e5 : e = 'f'
                      · rw [if_pos e5] at h ⊢
                        exact ih g hfg2 _ _ _ h
                      · rw [if_neg e5] at h ⊢
                        by_cases e6 : e = 'n'
                        · rw [if_pos e6] at h ⊢
                          exact ih g hfg2 _ _ _ h
                        · rw [if_neg e6] at h ⊢
                          by_cases e7 : e = 'r'
                          · rw [if_pos e7] at h ⊢
                            exact ih g hfg2 _ _ _ h
                          · rw [if_neg e7] at h ⊢
                            by_cases e8 : e = 't'
                            · rw [if_pos e8] at h ⊢
                              exact ih g hfg2 _ _ _ h
                            · rw [if_neg e8] at h ⊢
                              by_cases e9 : e = 'u'
                              · rw [if_pos e9] at h ⊢
                                cases cs2 with
                                | nil => simp at h
                                | cons x1 cs21 =>
                                  cases cs21 with
                                  | nil => simp at h
                                  | cons x2 cs22 =>
                                    cases cs22 with
                                    | nil => simp at h
                                    | cons x3 cs23 =>
                                      cases cs23 with
                                      | nil => simp at h
                                      | cons x4 cs3 =>
                                        dsimp only at h ⊢
                                        cases hx1 : hexVal x1 with
                                        | none => rw [hx1] at h; simp at h
                                        | some a =>
                                          rw [hx1] at h
                                          cases hx2 : hexVal x2 with
                                          | none => rw [hx2] at h; simp at h
                                          | some b =>
                                            rw [hx2] at h
                                            cases hx3 : hexVal x3 with
                                            | none => rw [hx3] at h; simp at h
                                            | some c3 =>
                                              rw [hx3] at h
                                              cases hx4 : hexVal x4 with
                                              | none => rw [hx4] at h; simp at h
                                              | some d =>
                                                rw [hx4] at h
                                                dsimp only at h ⊢
                                                by_cases hh :
                                                    isHighSurrogate
                                                      (((a * 16 + b) * 16 + c3) * 16 + d) = true
                                                · rw [if_pos hh] at h ⊢
                                                  exact ih g hfg2 _ _ _ h
                                                · rw [if_neg hh] at h ⊢
                                                  by_cases hl :
                                                      isLowSurrogate
                                                        (((a * 16 + b) * 16 + c3) * 16 + d) = true
                                                  · rw [if_pos hl] at h ⊢
                                                    exact ih g hfg2 _ _ _ h
                                                  · rw [if_neg hl] at h ⊢
                                                    exact ih g hfg2 _ _ _ h
                              · rw [if_neg e9] at h
                                simp at h
          · rw [if_neg h2] at h ⊢
            by_cases h3 : c.toNat < 0x20
            · rw [if_pos h3] at h
              simp at h
            · rw [if_neg h3] at h ⊢
              exact ih g hfg2 _ _ _ h

/-- Appending input after a (potential) low-surrogate lookahead either
leaves the lookahead's result untouched, or the remaining input was a short
prefix of an escape, on which the string parser must fail anyway. -/
theorem surrPair_append (n : Nat) (cs t : List Char) :
    surrPair n (cs ++ t) = ((surrPair n cs).1, (surrPair n cs).2 ++ t) ∨
      (surrPair n cs = (uFFFD, cs) ∧ ∀ f acc x, parseStrAux f (x :: acc) cs = none) := by
  match cs with
  | [] =>
    right
    refine ⟨rfl, ?_⟩
    intro f acc x
    cases f with
    | zero => simp [parseStrAux]
    | succ f => simp [parseStrAux]
  | c1 :: cs1 =>
    by_cases hc1 : c1 = '\\'
    · subst hc1
      match cs1 with
      | [] =>
        right
        refine ⟨surrPair_eq_fallback n _ (fun g1 g2 g3 g4 cs4 heq => by simp at heq), ?_⟩
        intro f acc x
        cases f with
        | zero => simp [parseStrAux]
        | succ f => simp [parseStrAux]
      | c2 :: cs2 =>
        by_cases hc2 : c2 = 'u'
        · subst hc2
          match cs2 with
          | [] =>
            right
            refine ⟨surrPair_eq_fallback n _ (fun g1 g2 g3 g4 cs4 heq => by simp at heq), ?_⟩
            intro f acc x
            cases f with
            | zero => simp [parseStrAux]
            | succ f => simp [parseStrAux]
          | [g1] =>
            right
            refine ⟨surrPair_eq_fallback n _ (fun g1 g2 g3 g4 cs4 heq => by simp at heq), ?_⟩
            intro f acc x
            cases f with
            | zero => simp [parseStrAux]
            | succ f => simp [parseStrAux]
          | [g1, g2] =>
            right
            refine ⟨surrPair_eq_fallback n _ (fun g1 g2 g3 g4 cs4 heq => by simp at heq), ?_⟩
            intro f acc x
            cases f with
            | zero => simp [parseStrAux]
            | succ f => simp [parseStrAux]
          | [g1, g2, g3] =>
            right
            refine ⟨surrPair_eq_fallback n _ (fun g1 g2 g3 g4 cs4 heq => by simp at heq), ?_⟩
            intro f acc x
            cases f with
            | zero => simp [parseStrAux]
            | succ f => simp [parseStrAux]
          | g1 :: g2 :: g3 :: g4 :: cs4 =>
            left
            simp only [List.cons_append, surrPair]
            cases hx1 : hexVal g1 with
            | none => rfl
            | some a =>
              cases hx2 : hexVal g2 with
              | none => rfl
              | some b =>
                cases hx3 : hexVal g3 with
                | none => rfl
                | some c =>
                  cases hx4 : hexVal g4 with
                  | none => rfl
                  | some d =>
                    dsimp only
                    by_cases hlow : isLowSurrogate (((a * 16 + b) * 16 + c) * 16 + d) = true
                    · rw [if_pos hlow, if_pos hlow]
                    · rw [if_neg hlow, if_neg hlow]
                      rfl
        · left
          have hs1 : surrPair n ('\\' :: c2 :: cs2) = (uFFFD, '\\' :: c2 :: cs2) :=
            surrPair_eq_fallback n _ (fun g1 g2 g3 g4 cs4 heq => by
              injection heq with e1 e2
              injection e2 with e3 e4
              exact hc2 e3)
          have hs2 : surrPair n (('\\' :: c2 :: cs2) ++ t) = (uFFFD, ('\\' :: c2 :: cs2) ++ t) :=
            surrPair_eq_fallback n _ (fun g1 g2 g3 g4 cs4 heq => by
              rw [List.cons_append, List.cons_append] at heq
              injection heq with e1 e2
              injection e2 with e3 e4
              exact hc2 e3)
          rw [hs1, hs2]
    · left
      have hs1 : surrPair n (c1 :: cs1) = (uFFFD, c1 :: cs1) :=
        surrPair_eq_fallback n _ (fun g1 g2 g3 g4 cs4 heq => by
          injection heq with e1 e2
          exact hc1 e1)
      have hs2 : surrPair n ((c1 :: cs1) ++ t) = (uFFFD, (c1 :: cs1) ++ t) :=
        surrPair_eq_fallback n _ (fun g1 g2 g3 g4 cs4 heq => by
          rw [List.cons_append] at heq
          injection heq with e1 e2
          exact hc1 e1)
      rw [hs1, hs2]

theorem parseStrAux_append : ∀ (f : Nat) (acc s : List Char) (v : String) (r t : List Char),
    parseStrAux f acc s = some (v, r) → parseStrAux f acc (s ++ t) = some (v, r ++ t) := by
  intro f
  induction f with
  | zero =>
    intro acc s v r t h
    simp [parseStrAux] at h
  | succ f ih =>
    intro acc s v r t h
    cases s with
    | nil => simp [parseStrAux] at h
    | cons c cs =>
      rw [List.cons_append]
      simp only [parseStrAux] at h ⊢
      by_cases h1 : c = '"'
      · rw [if_pos h1] at h ⊢
        injection h with hp
        injection hp with h2 h3
        subst h2
        subst h3
        rfl
      · rw [if_neg h1] at h ⊢
        by_cases h2 : c = '\\'
        · rw [if_pos h2] at h ⊢
          cases cs with
          | nil => simp at h
          | cons e cs2 =>
            rw [List.cons_append]
            dsimp only at h ⊢
            by_cases e1 : e = '"'
            · rw [if_pos e1] at h ⊢
              exact ih _ _ _ _ _ h
            · rw [if_neg e1] at h ⊢
              by_cases e2 : e = '\\'
              · rw [if_pos e2] at h ⊢
                exact ih _ _ _ _ _ h
              · rw [if_neg e2] at h ⊢
                by_cases e3 : e = '/'
                · rw [if_pos e3] at h ⊢
                  exact ih _ _ _ _ _ h
                · rw [if_neg e3] at h ⊢
                  by_cases e4 : e = 'b'
                  · rw [if_pos e4] at h ⊢
                    exact ih _ _ _ _ _ h
                  · rw [if_neg e4] at h ⊢
                    by_cases e5 : e = 'f'
                    · rw [if_pos e5] at h ⊢
                      exact ih _ _ _ _ _ h
                    · rw [if_neg e5] at h ⊢
                      by_cases e6 : e = 'n'
                      · rw [if_pos e6] at h ⊢
                        exact ih _ _ _ _ _ h
                      · rw [if_neg e6] at h ⊢
                        by_cases e7 : e = 'r'
                        · rw [if_pos e7] at h ⊢
                          exact ih _ _ _ _ _ h
                        · rw [if_neg e7] at h ⊢
                          by_cases e8 : e = 't'
                          · rw [if_pos e8] at h ⊢
                            exact ih _ _ _ _ _ h
                          · rw [if_neg e8] at h ⊢
                            by_cases e9 : e = 'u'
                            · rw [if_pos e9] at h ⊢
                              cases cs2 with
                              | nil => simp at h
                              | cons x1 cs21 =>
                                cases cs21 with
                                | nil => simp at h
                                | cons x2 cs22 =>
                                  cases cs22 with
                                  | nil => simp at h
                                  | cons x3 cs23 =>
                                    cases cs23 with
                                    | nil => simp at h
                                    | cons x4 cs3 =>
                                      rw [List.cons_append, List.cons_append,
                                        List.cons_append, List.cons_append]
                                      dsimp only at h ⊢
                                      cases hx1 : hexVal x1 with
                                      | none => rw [hx1] at h; simp at h
                                      | some a =>
                                        rw [hx1] at h
                                        cases hx2 : hexVal x2 with
                                        | none => rw [hx2] at h; simp at h
                                        | some b =>
                                          rw [hx2] at h
                                          cases hx3 : hexVal x3 with
                                          | none => rw [hx3] at h; simp at h
                                          | some c3 =>
                                            rw [hx3] at h
                                            cases hx4 : hexVal x4 with
                                            | none => rw [hx4] at h; simp at h
                                            | some d =>
                                              rw [hx4] at h
                                              dsimp only at h ⊢
                                              by_cases hh :
                                                  isHighSurrogate
                                                    (((a * 16 + b) * 16 + c3) * 16 + d) = true
                                              · rw [if_pos hh] at h ⊢
                                                rcases surrPair_append
                                                    (((a * 16 + b) * 16 + c3) * 16 + d) cs3 t with
                                                  heq | hfall
                                                · rw [heq]
                                                  dsimp only
                                                  exact ih _ _ _ _ _ h
                                                · rw [hfall.1] at h
                                                  dsimp only at h
                                                  rw [hfall.2 f acc uFFFD] at h
                                                  exact absurd h (by simp)
                                              · rw [if_neg hh] at h ⊢
                                                by_cases hl :
                                                    isLowSurrogate
                                                      (((a * 16 + b) * 16 + c3) * 16 + d) = true
                                                · rw [if_pos hl] at h ⊢
                                                  exact ih _ _ _ _ _ h
                                                · rw [if_neg hl] at h ⊢
                                                  exact ih _ _ _ _ _ h
                            · rw [if_neg e9] at h
                              simp at h
        · rw [if_neg h2] at h ⊢
          by_cases h3 : c.toNat < 0x20
          · rw [if_pos h3] at h
            simp at h
          · rw [if_neg h3] at h ⊢
            exact ih _ _ _ _ _ h

/-- Prefix stability of the string lexer: appending input after a complete
JSON string does not change its parse. -/
theorem parseStr_append {s : List Char} {v : String} {r t : List Char}
    (h : parseStr s = some (v, r)) : parseStr (s ++ t) = some (v, r ++ t) := by
  have h2 : parseStrAux ((s ++ t).length + 1) [] s = some (v, r) :=
    parseStrAux_mono (s.length + 1) ((s ++ t).length + 1)
      (by simp) [] s (v, r) h
  exact parseStrAux_append _ _ _ _ _ _ h2

/-- Values whose lexical form is self-delimiting (everything except a
number, which would absorb appended digits). -/
def jsonSelfDelim : JsonVal → Bool
  | JsonVal.num _ => false
  | _ => true

/-- Fuel monotonicity for the mutual JSON value parser. -/
theorem parseMono : ∀ (f g : Nat), f ≤ g →
    (∀ cs x, parseVal f cs = some x → parseVal g cs = some x) ∧
    (∀ cs x, parseObjBody f cs = some x → parseObjBody g cs = some x) ∧
    (∀ cs acc x, parseMembers f cs acc = some x → parseMembers g cs acc = some x) ∧
    (∀ cs x, parseArrBody f cs = some x → parseArrBody g cs = some x) ∧
    (∀ cs acc x, parseElems f cs acc = some x → parseElems g cs acc = some x) := by
  intro f
  induction f with
  | zero =>
    intro g _
    refine ⟨?_, ?_, ?_, ?_, ?_⟩ <;> intros cs
    · intro x h; simp [parseVal] at h
    · intro x h; simp [parseObjBody] at h
    · intro acc x h; simp [parseMembers] at h
    · intro x h; simp [parseArrBody] at h
    · intro acc x h; simp [parseElems] at h
  | succ f ih =>
    intro g hfg
    match g, hfg with
    | g + 1, hfg =>
      obtain ⟨ihv, iho, ihm, iha, ihe⟩ := ih g (Nat.le_of_succ_le_succ hfg)
      refine ⟨?_, ?_, ?_, ?_, ?_⟩
      · -- parseVal
        intro cs x h
        simp only [parseVal] at h ⊢
        cases hsw : skipWs cs with
        | nil => rw [hsw] at h; simp at h
        | cons c r =>
          rw [hsw] at h
          dsimp only at h ⊢
          by_cases h1 : c = Char.ofNat 123
          · rw [if_pos h1] at h ⊢
            exact iho _ _ h
          · rw [if_neg h1] at h ⊢
            by_cases h2 : c = '['
            · rw [if_pos h2] at h ⊢
              exact iha _ _ h
            · rw [if_neg h2] at h ⊢
              exact h
      · -- parseObjBody
        intro cs x h
        simp only [parseObjBody] at h ⊢
        cases hsw : skipWs cs with
        | nil => rw [hsw] at h; simp at h
        | cons c r =>
          rw [hsw] at h
          dsimp only at h ⊢
          by_cases h1 : c = Char.ofNat 125
          · rw [if_pos h1] at h ⊢
            exact h
          · rw [if_neg h1] at h ⊢
            exact ihm _ _ _ h
      · -- parseMembers
        intro cs acc x h
        simp only [parseMembers] at h ⊢
        cases hsw : skipWs cs with
        | nil => rw [hsw] at h; simp at h
        | cons c r =>
          rw [hsw] at h
          dsimp only at h ⊢
          by_cases hq : c = '"'
          · rw [if_pos hq] at h ⊢
            cases hps : parseStr r with
            | none => rw [hps] at h; simp at h
            | some kv =>
              obtain ⟨k, r2⟩ := kv
              rw [hps] at h
              dsimp only at h ⊢
              cases hsw2 : skipWs r2 with
              | nil => rw [hsw2] at h; simp at h
              | cons c2 r3 =>
                rw [hsw2] at h
                dsimp only at h ⊢
                by_cases hc2 : c2 = ':'
                · rw [if_pos hc2] at h ⊢
                  cases hv : parseVal f r3 with
                  | none => rw [hv] at h; simp at h
                  | some vr =>
                    obtain ⟨v, r4⟩ := vr
                    rw [hv] at h
                    rw [ihv _ _ hv]
                    dsimp only at h ⊢
                    cases hsw4 : skipWs r4 with
                    | nil => rw [hsw4] at h; simp at h
                    | cons c4 r5 =>
                      rw [hsw4] at h
                      dsimp only at h ⊢
                      by_cases hc4 : c4 = ','
                      · rw [if_pos hc4] at h ⊢
                        exact ihm _ _ _ h
                      · rw [if_neg hc4] at h ⊢
                        exact h
                · rw [if_neg hc2] at h
                  simp at h
          · rw [if_neg hq] at h
            simp at h
      · -- parseArrBody
        intro cs x h
        simp only [parseArrBody] at h ⊢
        cases hsw : skipWs cs with
        | nil => rw [hsw] at h; simp at h
        | cons c r =>
          rw [hsw] at h
          dsimp only at h ⊢
          by_cases h1 : c = ']'
          · rw [if_pos h1] at h ⊢
            exact h
          · rw [if_neg h1] at h ⊢
            exact ihe _ _ _ h
      · -- parseElems
        intro cs acc x h
        simp only [parseElems] at h ⊢
        cases hv : parseVal f cs with
        | none => rw [hv] at h; simp at h
        | some vr =>
          obtain ⟨v, r⟩ := vr
          rw [hv] at h
          rw [ihv _ _ hv]
          dsimp only at h ⊢
          cases hsw : skipWs r with
          | nil => rw [hsw] at h; simp at h
          | cons c2 r2 =>
            rw [hsw] at h
            dsimp only at h ⊢
            by_cases hc : c2 = ','
            · rw [if_pos hc] at h ⊢
              exact ihe _ _ _ h
            · rw [if_neg hc] at h ⊢
              exact h

/-- Prefix stability of the mutual JSON value parser: appending input after
a parsed value does not change the parse, provided the value did not end at
the very end of the input with a token that could absorb appended characters
(a number; all other values are self-delimiting). -/
theorem parseAppend : ∀ (f : Nat),
    (∀ s t j r, parseVal f s = some (j, r) → (r ≠ [] ∨ jsonSelfDelim j = true) →
      parseVal f (s ++ t) = some (j, r ++ t)) ∧
    (∀ s t j r, parseObjBody f s = some (j, r) → parseObjBody f (s ++ t) = some (j, r ++ t)) ∧
    (∀ s t acc j r, parseMembers f s acc = some (j, r) →
      parseMembers f (s ++ t) acc = some (j, r ++ t)) ∧
    (∀ s t j r, parseArrBody f s = some (j, r) → parseArrBody f (s ++ t) = some (j, r ++ t)) ∧
    (∀ s t acc j r, parseElems f s acc = some (j, r) →
      parseElems f (s ++ t) acc = some (j, r ++ t)) := by
  intro f
  induction f with
  | zero =>
    refine ⟨?_, ?_, ?_, ?_, ?_⟩ <;> intros s t
    · intro j r h; simp [parseVal] at h
    · intro j r h; simp [parseObjBody] at h
    · intro acc j r h; simp [parseMembers] at h
    · intro j r h; simp [parseArrBody] at h
    · intro acc j r h; simp [parseElems] at h
  | succ f ih =>
    obtain ⟨ihv, iho, ihm, iha, ihe⟩ := ih
    refine ⟨?_, ?_, ?_, ?_, ?_⟩
    · -- parseVal
      intro s t j r h hside
      simp only [parseVal] at h ⊢
      cases hsw : skipWs s with
      | nil => rw [hsw] at h; simp at h
      | cons c r0 =>
        rw [hsw] at h
        rw [skipWs_append_cons t hsw]
        dsimp only at h ⊢
        by_cases h1 : c = Char.ofNat 123
        · rw [if_pos h1] at h ⊢
          exact iho _ _ _ _ h
        · rw [if_neg h1] at h ⊢
          by_cases h2 : c = '['
          · rw [if_pos h2] at h ⊢
            exact iha _ _ _ _ h
          · rw [if_neg h2] at h ⊢
            by_cases h3 : c = '"'
            · rw [if_pos h3] at h ⊢
              cases hps : parseStr r0 with
              | none => rw [hps] at h; simp at h
              | some kv =>
                obtain ⟨s1, r2⟩ := kv
                rw [hps] at h
                rw [parseStr_append hps]
                dsimp only at h ⊢
                injection h with hp
                injection hp with hj hr
                subst hj
                subst hr
                rfl
            · rw [if_neg h3] at h ⊢
              by_cases h4 : c = 't'
              · rw [if_pos h4] at h ⊢
                cases r0 with
                | nil => simp at h
                | cons c1 r01 =>
                  cases r01 with
                  | nil => simp at h
                  | cons cb r02 =>
                    cases r02 with
                    | nil => simp at h
                    | cons c3 r03 =>
                      simp only [List.cons_append] at h ⊢
                      by_cases hlit : c1 = 'r' ∧ cb = 'u' ∧ c3 = 'e'
                      · rw [if_pos hlit] at h
                        rw [if_pos hlit]
                        injection h with hp
                        injection hp with hj hr
                        subst hj
                        subst hr
                        rfl
                      · rw [if_neg hlit] at h
                        simp at h
              · rw [if_neg h4] at h ⊢
                by_cases h5 : c = 'f'
                · rw [if_pos h5] at h ⊢
                  cases r0 with
                  | nil => simp at h
                  | cons c1 r01 =>
                    cases r01 with
                    | nil => simp at h
                    | cons cb r02 =>
                      cases r02 with
                      | nil => simp at h
                      | cons c3 r03 =>
                        cases r03 with
                        | nil => simp at h
                        | cons c4 r04 =>
                          simp only [List.cons_append] at h ⊢
                          by_cases hlit : c1 = 'a' ∧ cb = 'l' ∧ c3 = 's' ∧ c4 = 'e'
                          · rw [if_pos hlit] at h
                            rw [if_pos hlit]
                            injection h with hp
                            injection hp with hj hr
                            subst hj
                            subst hr
                            rfl
                          · rw [if_neg hlit] at h
                            simp at h
                · rw [if_neg h5] at h ⊢
                  by_cases h6 : c = 'n'
                  · rw [if_pos h6] at h ⊢
                    cases r0 with
                    | nil => simp at h
                    | cons c1 r01 =>
                      cases r01 with
                      | nil => simp at h
                      | cons cb r02 =>
                        cases r02 with
                        | nil => simp at h
                        | cons c3 r03 =>
                          simp only [List.cons_append] at h ⊢
                          by_cases hlit : c1 = 'u' ∧ cb = 'l' ∧ c3 = 'l'
                          · rw [if_pos hlit] at h
                            rw [if_pos hlit]
                            injection h with hp
                            injection hp with hj hr
                            subst hj
                            subst hr
                            rfl
                          · rw [if_neg hlit] at h
                            simp at h
                  · rw [if_neg h6] at h ⊢
                    by_cases h7 : c = '-' ∨ c.isDigit
                    · rw [if_pos h7] at h ⊢
                      cases hnl : numLex (c :: r0) with
                      | none => rw [hnl] at h; simp at h
                      | some lv =>
                        obtain ⟨lit, r2⟩ := lv
                        rw [hnl] at h
                        dsimp only at h
                        injection h with hp
                        injection hp with hj hr
                        subst hj
                        subst hr
                        have hr2 : r2 ≠ [] := by
                          cases hside with
                          | inl hx => exact hx
                          | inr hx => simp [jsonSelfDelim] at hx
                        cases hrc : r2 with
                        | nil => exact absurd hrc hr2
                        | cons c2 r2b =>
                          subst hrc
                          have hna := numLex_append t hnl
                          rw [List.cons_append] at hna
                          rw [hna]
                          simp
                    · rw [if_neg h7] at h
                      simp at h
    · -- parseObjBody
      intro s t j r h
      simp only [parseObjBody] at h ⊢
      cases hsw : skipWs s with
      | nil => rw [hsw] at h; simp at h
      | cons c r0 =>
        rw [hsw] at h
        rw [skipWs_append_cons t hsw]
        dsimp only at h ⊢
        by_cases h1 : c = Char.ofNat 125
        · rw [if_pos h1] at h ⊢
          injection h with hp
          injection hp with hj hr
          subst hj
          subst hr
          rfl
        · rw [if_neg h1] at h ⊢
          have hres := ihm (c :: r0) t [] j r h
          rw [List.cons_append] at hres
          exact hres
    · -- parseMembers
      intro s t acc j r h
      simp only [parseMembers] at h ⊢
      cases hsw : skipWs s with
      | nil => rw [hsw] at h; simp at h
      | cons c r0 =>
        rw [hsw] at h
        rw [skipWs_append_cons t hsw]
        dsimp only at h ⊢
        by_cases hq : c = '"'
        · rw [if_pos hq] at h ⊢
          cases hps : parseStr r0 with
          | none => rw [hps] at h; simp at h
          | some kv =>
            obtain ⟨k, r2⟩ := kv
            rw [hps] at h
            rw [parseStr_append hps]
            dsimp only at h ⊢
            cases hsw2 : skipWs r2 with
            | nil => rw [hsw2] at h; simp at h
            | cons c2 r3 =>
              rw [hsw2] at h
              rw [skipWs_append_cons t hsw2]
              dsimp only at h ⊢
              by_cases hc2 : c2 = ':'
              · rw [if_pos hc2] at h ⊢
                cases hv : parseVal f r3 with
                | none => rw [hv] at h; simp at h
                | some vr =>
                  obtain ⟨v, r4⟩ := vr
                  rw [hv] at h
                  dsimp only at h
                  cases hsw4 : skipWs r4 with
                  | nil => rw [hsw4] at h; simp at h
                  | cons c4 r5 =>
                    rw [hsw4] at h
                    have hr4 : r4 ≠ [] := by
                      intro hz
                      rw [hz] at hsw4
                      simp [skipWs] at hsw4
                    rw [ihv r3 t v r4 hv (Or.inl hr4)]
                    dsimp only
                    rw [skipWs_append_cons t hsw4]
                    dsimp only at h ⊢
                    by_cases hc4 : c4 = ','
                    · rw [if_pos hc4] at h ⊢
                      exact ihm _ _ _ _ _ h
                    · rw [if_neg hc4] at h ⊢
                      by_cases hbr : c4 = Char.ofNat 125
                      · rw [if_pos hbr] at h ⊢
                        injection h with hp
                        injection hp with hj hr
                        subst hj
                        subst hr
                        rfl
                      · rw [if_neg hbr] at h
                        simp at h
              · rw [if_neg hc2] at h
                simp at h
        · rw [if_neg hq] at h
          simp at h
    · -- parseArrBody
      intro s t j r h
      simp only [parseArrBody] at h ⊢
      cases hsw : skipWs s with
      | nil => rw [hsw] at h; simp at h
      | cons c r0 =>
        rw [hsw] at h
        rw [skipWs_append_cons t hsw]
        dsimp only at h ⊢
        by_cases h1 : c = ']'
        · rw [if_pos h1] at h ⊢
          injection h with hp
          injection hp with hj hr
          subst hj
          subst hr
          rfl
        · rw [if_neg h1] at h ⊢
          have hres := ihe (c :: r0) t [] j r h
          rw [List.cons_append] at hres
          exact hres
    · -- parseElems
      intro s t acc j r h
      simp only [parseElems] at h ⊢
      cases hv : parseVal f s with
      | none => rw [hv] at h; simp at h
      | some vr =>
        obtain ⟨v, r0⟩ := vr
        rw [hv] at h
        dsimp only at h
        cases hsw : skipWs r0 with
        | nil => rw [hsw] at h; simp at h
        | cons c2 r2 =>
          rw [hsw] at h
          have hr0 : r0 ≠ [] := by
            intro hz
            rw [hz] at hsw
            simp [skipWs] at hsw
          rw [ihv s t v r0 hv (Or.inl hr0)]
          dsimp only
          rw [skipWs_append_cons t hsw]
          dsimp only at h ⊢
          by_cases hc : c2 = ','
          · rw [if_pos hc] at h ⊢
            exact ihe _ _ _ _ _ h
          · rw [if_neg hc] at h ⊢
            by_cases hcl : c2 = ']'
            · rw [if_pos hcl] at h ⊢
              injection h with hp
              injection hp with hj hr
              subst hj
              subst hr
              rfl
            · rw [if_neg hcl] at h
              simp at h

/-- A body that is exactly one JSON object parses the same way when
arbitrary bytes are appended: a `Decode` never looks past the closing
brace of a top-level object. -/
theorem parseOne_obj_append {s : List Char} {fl : List (String × JsonVal)} (t : List Char)
    (h : parseOne s = some (JsonVal.obj fl, [])) :
    parseOne (s ++ t) = some (JsonVal.obj fl, t) := by
  have hf : fuelFor s ≤ fuelFor (s ++ t) := by
    simp only [fuelFor, List.length_append]
    omega
  have h1 : parseVal (fuelFor (s ++ t)) s = some (JsonVal.obj fl, []) :=
    (parseMono (fuelFor s) (fuelFor (s ++ t)) hf).1 _ _ h
  have h2 := (parseAppend (fuelFor (s ++ t))).1 s t _ _ h1 (Or.inr rfl)
  simpa using h2

/-- A key matching no field of the full schema (not even case-insensitively)
makes the strict decoder fail. -/
theorem assignFull_unknown {p : SessionRequestFull} {k : String} {v : JsonVal}
    (hk : matchesFullSchema k = false) : assignFull true p k v = none := by
  simp only [matchesFullSchema, Bool.or_eq_false_iff] at hk
  obtain ⟨⟨⟨h1, h2⟩, h3⟩, h4⟩ := hk
  unfold assignFull
  rw [if_neg (by simp [h1]), if_neg (by simp [h2]), if_neg (by simp [h3]),
    if_neg (by simp [h4]), if_pos rfl]

theorem decodeFieldsFull_unknown : ∀ (fs : List (String × JsonVal)) (p : SessionRequestFull),
    (∃ kv ∈ fs, matchesFullSchema kv.1 = false) → decodeFieldsFull true p fs = none := by
  intro fs
  induction fs with
  | nil =>
    intro p h
    simp at h
  | cons kv rest ih =>
    intro p h
    obtain ⟨k, v⟩ := kv
    simp only [decodeFieldsFull]
    cases hm : matchesFullSchema k with
    | false => rw [assignFull_unknown hm]
    | true =>
      cases ha : assignFull true p k v with
      | none => rfl
      | some p2 =>
        dsimp only
        apply ih
        obtain ⟨kv2, hmem, hfalse⟩ := h
        rcases List.mem_cons.mp hmem with heq | hrest
        · exfalso
          rw [heq] at hfalse
          simp only at hfalse
          rw [hm] at hfalse
          exact absurd hfalse (by simp)
        · exact ⟨kv2, hrest, hfalse⟩

theorem decodeFull_unknown {fs : List (String × JsonVal)}
    (h : ∃ kv ∈ fs, matchesFullSchema kv.1 = false) :
    decodeFull true (JsonVal.obj fs) = none := by
  simp only [decodeFull]
  exact decodeFieldsFull_unknown fs _ h

theorem assignUser_unknown {p : SessionRequestUser} {k : String} {v : JsonVal}
    (hk : matchesFullSchema k = false) : assignUser true p k v = none := by
  simp only [matchesFullSchema, Bool.or_eq_false_iff] at hk
  obtain ⟨⟨⟨h1, h2⟩, h3⟩, h4⟩ := hk
  unfold assignUser
  rw [if_neg (by simp [h1]), if_pos rfl]

theorem decodeFieldsUser_unknown : ∀ (fs : List (String × JsonVal)) (p : SessionRequestUser),
    (∃ kv ∈ fs, matchesFullSchema kv.1 = false) → decodeFieldsUser true p fs = none := by
  intro fs
  induction fs with
  | nil =>
    intro p h
    simp at h
  | cons kv rest ih =>
    intro p h
    obtain ⟨k, v⟩ := kv
    simp only [decodeFieldsUser]
    cases hm : matchesFullSchema k with
    | false => rw [assignUser_unknown hm]
    | true =>
      cases ha : assignUser true p k v with
      | none => rfl
      | some p2 =>
        dsimp only
        apply ih
        obtain ⟨kv2, hmem, hfalse⟩ := h
        rcases List.mem_cons.mp hmem with heq | hrest
        · exfalso
          rw [heq] at hfalse
          simp only at hfalse
          rw [hm] at hfalse
          exact absurd hfalse (by simp)
        · exact ⟨kv2, hrest, hfalse⟩

theorem decodeUser_unknown {fs : List (String × JsonVal)}
    (h : ∃ kv ∈ fs, matchesFullSchema kv.1 = false) :
    decodeUser true (JsonVal.obj fs) = none := by
  simp only [decodeUser]
  exact decodeFieldsUser_unknown fs _ h

/-! ## Concrete material for witnesses and counterexamples -/

/-- Gateway stub that always succeeds with the secret `"secret"`. -/
def gwStubOk : SessionCreator := fun _ => Except.ok "secret"

/-- Server-fixed configuration used in concrete instances. -/
def cfgDemo : FixedSessionConfig := ⟨"wf", 1200, 10⟩

def bodyUserOnly : List Char := "\x7b\"user\":\"u\"\x7d".data

def bodyUserWf : List Char := "\x7b\"user\":\"u\",\"workflow_id\":\"w\"\x7d".data

def bodyUnknownField : List Char := "\x7b\"user\":\"u\",\"workflow_id\":\"w\",\"foo\":1\x7d".data

def bodyNegExpiry : List Char :=
  "\x7b\"user\":\"u\",\"workflow_id\":\"w\",\"expires_after_seconds\":-1\x7d".data

def bodyWsUser : List Char := "\x7b\"user\":\"  \"\x7d".data

/-! ## The claims -/

/-- Claim C10: the required-user check of the server-fixed-configuration
session handler (`handlers.go`) rejects only the exactly-empty string; every
non-empty user value, whitespace-only strings included, passes validation
and is forwarded byte-for-byte, without trimming or normalization, as the
User parameter of the gateway call. -/
theorem claim_C10_user_forwarded (cfg : FixedSessionConfig) (body : List Char) (j : JsonVal)
    (rest : List Char) (p : SessionRequestUser) (gw : SessionCreator)
    (hp : parseOne body = some (j, rest))
    (hsz : body.length - rest.length ≤ maxRequestBodyBytes)
    (hd : decodeUser true j = some p) :
    (p.user = "" →
      handleSessionFixed cfg "POST" body gw = ⟨httpError "user is required" 400, none⟩) ∧
    (p.user ≠ "" →
      (handleSessionFixed cfg "POST" body gw).gatewayCall =
        some ⟨p.user, cfg.workflowID, cfg.expiresAfterSeconds, createdAtAnchor,
          cfg.rateLimitPerMinute⟩) := by
  have hm : ¬("POST" ≠ "POST") := by simp
  constructor
  · intro hu
    simp only [handleSessionFixed, if_neg hm, hp]
    rw [if_neg (Nat.not_lt.mpr hsz), hd]
    dsimp only
    rw [if_pos hu]
  · intro hu
    simp only [handleSessionFixed, if_neg hm, hp]
    rw [if_neg (Nat.not_lt.mpr hsz), hd]
    dsimp only
    rw [if_neg hu]
    cases hgw : gw ⟨p.user, cfg.workflowID, cfg.expiresAfterSeconds, createdAtAnchor,
        cfg.rateLimitPerMinute⟩ with
    | error e => rfl
    | ok s => rfl

/-- Witness for C10: a whitespace-only user is accepted and forwarded
verbatim. -/
theorem claim_C10_user_forwarded_witness :
    (handleSessionFixed cfgDemo "POST" bodyWsUser gwStubOk).gatewayCall =
      some ⟨"  ", "wf", 1200, "created_at", 10⟩ :=
  (claim_C10_user_forwarded cfgDemo bodyWsUser (JsonVal.obj [("user", JsonVal.str "  ")]) []
    ⟨"  "⟩ gwStubOk rfl (by decide) rfl).2 (by decide)

/-- Claim C1 (amended): in the strict-decoding session handlers (the
`handlers.go` handler and the client-supplied `main.go` variant, which call
`DisallowUnknownFields`), every request body that is a JSON object with a
top-level field matching no schema field yields HTTP 400 and the gateway is
never invoked, regardless of the other fields.  (As originally stated the
claim fails: the legacy `main.go` draft decodes without
`DisallowUnknownFields` and silently ignores unknown fields — see the
counterexample.) -/
theorem claim_C1_unknown_field (body : List Char) (fs : List (String × JsonVal))
    (rest : List Char) (k : String) (v : JsonVal) (cfg : FixedSessionConfig)
    (gw gw2 : SessionCreator)
    (hp : parseOne body = some (JsonVal.obj fs, rest))
    (hmem : (k, v) ∈ fs) (hunk : matchesFullSchema k = false) :
    ((handleSessionFixed cfg "POST" body gw).response.status = 400 ∧
      (handleSessionFixed cfg "POST" body gw).gatewayCall = none) ∧
    ((handleSessionClient "POST" body gw2).response.status = 400 ∧
      (handleSessionClient "POST" body gw2).gatewayCall = none) := by
  have hm : ¬("POST" ≠ "POST") := by simp
  have hex : ∃ kv ∈ fs, matchesFullSchema kv.1 = false := ⟨(k, v), hmem, hunk⟩
  constructor
  · simp only [handleSessionFixed, if_neg hm, hp]
    by_cases hsz : maxRequestBodyBytes < body.length - rest.length
    · rw [if_pos hsz]
      exact ⟨rfl, rfl⟩
    · rw [if_neg hsz, decodeUser_unknown hex]
      exact ⟨rfl, rfl⟩
  · simp only [handleSessionClient, if_neg hm, hp]
    by_cases hsz : maxRequestBodyBytes < body.length - rest.length
    · rw [if_pos hsz]
      exact ⟨rfl, rfl⟩
    · rw [if_neg hsz, decodeFull_unknown hex]
      exact ⟨rfl, rfl⟩

/-- Witness for C1 (amended): the strict handlers reject
`‹user u, workflow_id w, foo 1›` with 400 and never call the gateway. -/
theorem claim_C1_unknown_field_witness :
    (handleSessionFixed cfgDemo "POST" bodyUnknownField gwStubOk).response.status = 400 ∧
    (handleSessionFixed cfgDemo "POST" bodyUnknownField gwStubOk).gatewayCall = none ∧
    (handleSessionClient "POST" bodyUnknownField gwStubOk).response.status = 400 ∧
    (handleSessionClient "POST" bodyUnknownField gwStubOk).gatewayCall = none := by
  have h := claim_C1_unknown_field bodyUnknownField
    [("user", JsonVal.str "u"), ("workflow_id", JsonVal.str "w"), ("foo", JsonVal.num "1")]
    [] "foo" (JsonVal.num "1") cfgDemo gwStubOk gwStubOk rfl (by simp) (by decide)
  exact ⟨h.1.1, h.1.2, h.2.1, h.2.2⟩

/-- Counterexample for C1 as stated: the legacy `main.go` handler decodes
the same body (which carries the unknown top-level field `foo`) without
`DisallowUnknownFields`; validation succeeds, the gateway IS invoked, and
the request completes with 200 — not 400. -/
theorem claim_C1_unknown_field_cex :
    parseOne bodyUnknownField =
      some (JsonVal.obj
        [("user", JsonVal.str "u"), ("workflow_id", JsonVal.str "w"),
          ("foo", JsonVal.num "1")], []) ∧
    matchesFullSchema "foo" = false ∧
    (handleSessionLegacy true "POST" bodyUnknownField gwStubOk).response.status = 200 ∧
    (handleSessionLegacy true "POST" bodyUnknownField gwStubOk).gatewayCall =
      some ⟨"u", "w", 1200, "created_at", 10⟩ :=
  ⟨rfl, by decide, rfl, rfl⟩

/-- Claim C4: in the client-supplied-with-defaults variant, an otherwise
valid request with `expires_after_seconds` or `rate_limit_per_minute` equal
to 0 (which is also what an absent field decodes to) reaches the gateway
with the configured default for that field (1200 seconds, 10 requests per
minute) — never with literal zero. -/
theorem claim_C4_zero_resolves_to_default (body : List Char) (j : JsonVal) (rest : List Char)
    (p : SessionRequestFull) (gw : SessionCreator)
    (hp : parseOne body = some (j, rest))
    (hsz : body.length - rest.length ≤ maxRequestBodyBytes)
    (hd : decodeFull true j = some p)
    (hu : p.user ≠ "") (hw : p.workflowID ≠ "")
    (he : 0 ≤ p.expiresAfterSeconds) (hr : 0 ≤ p.rateLimitPerMinute) :
    ∃ pr, (handleSessionClient "POST" body gw).gatewayCall = some pr ∧
      (p.expiresAfterSeconds = 0 → pr.expiresSeconds = defaultExpiresAfterSecs) ∧
      (p.rateLimitPerMinute = 0 → pr.rateLimitPerMinute = defaultRateLimitPerMin) ∧
      pr.expiresSeconds ≠ 0 ∧ pr.rateLimitPerMinute ≠ 0 := by
  have hm : ¬("POST" ≠ "POST") := by simp
  have huw : ¬(p.user = "" ∨ p.workflowID = "") := by
    intro hx
    cases hx with
    | inl a => exact hu a
    | inr a => exact hw a
  simp only [handleSessionClient, if_neg hm, hp]
  rw [if_neg (Nat.not_lt.mpr hsz), hd]
  dsimp only
  rw [if_neg huw, if_neg (by omega : ¬p.expiresAfterSeconds < 0),
    if_neg (by omega : ¬p.rateLimitPerMinute < 0)]
  refine ⟨⟨p.user, p.workflowID,
    if p.expiresAfterSeconds = 0 then defaultExpiresAfterSecs else p.expiresAfterSeconds,
    createdAtAnchor,
    if p.rateLimitPerMinute = 0 then defaultRateLimitPerMin else p.rateLimitPerMinute⟩,
    ?_, ?_, ?_, ?_, ?_⟩
  · cases hgw : gw ⟨p.user, p.workflowID,
        if p.expiresAfterSeconds = 0 then defaultExpiresAfterSecs else p.expiresAfterSeconds,
        createdAtAnchor,
        if p.rateLimitPerMinute = 0 then defaultRateLimitPerMin else p.rateLimitPerMinute⟩ with
    | error e => rfl
    | ok s => rfl
  · intro hz
    simp [hz]
  · intro hz
    simp [hz]
  · simp only [defaultExpiresAfterSecs]
    split
    · omega
    · next hz => omega
  · simp only [defaultRateLimitPerMin]
    split
    · omega
    · next hz => omega

/-- Witness for C4: a body that omits both numeric fields reaches the
gateway with expiry 1200 and rate limit 10. -/
theorem claim_C4_zero_resolves_to_default_witness :
    ∃ pr, (handleSessionClient "POST" bodyUserWf gwStubOk).gatewayCall = some pr ∧
      ((0 : Int) = 0 → pr.expiresSeconds = defaultExpiresAfterSecs) ∧
      ((0 : Int) = 0 → pr.rateLimitPerMinute = defaultRateLimitPerMin) ∧
      pr.expiresSeconds ≠ 0 ∧ pr.rateLimitPerMinute ≠ 0 :=
  claim_C4_zero_resolves_to_default bodyUserWf
    (JsonVal.obj [("user", JsonVal.str "u"), ("workflow_id", JsonVal.str "w")]) []
    ⟨"u", "w", 0, 0⟩ gwStubOk rfl (by decide) rfl (by decide) (by decide) (by decide) (by decide)

/-- Claim C5: in the client-supplied-with-defaults variant, a decoded body
with a negative `expires_after_seconds` or `rate_limit_per_minute` always
produces HTTP 400 without a gateway call, regardless of the other fields;
and a value of exactly 0 (with the other fields valid) is not an error: the
gateway is reached. -/
theorem claim_C5_negative_rejected (body : List Char) (j : JsonVal) (rest : List Char)
    (p : SessionRequestFull) (gw : SessionCreator)
    (hp : parseOne body = some (j, rest))
    (hd : decodeFull true j = some p) :
    ((p.expiresAfterSeconds < 0 ∨ p.rateLimitPerMinute < 0) →
      (handleSessionClient "POST" body gw).response.status = 400 ∧
      (handleSessionClient "POST" body gw).gatewayCall = none) ∧
    (p.user ≠ "" → p.workflowID ≠ "" → p.expiresAfterSeconds = 0 → p.rateLimitPerMinute = 0 →
      body.length - rest.length ≤ maxRequestBodyBytes →
      (handleSessionClient "POST" body gw).gatewayCall ≠ none) := by
  have hm : ¬("POST" ≠ "POST") := by simp
  constructor
  · intro hneg
    simp only [handleSessionClient, if_neg hm, hp]
    by_cases hsz : maxRequestBodyBytes < body.length - rest.length
    · rw [if_pos hsz]
      exact ⟨rfl, rfl⟩
    · rw [if_neg hsz, hd]
      dsimp only
      by_cases huw : p.user = "" ∨ p.workflowID = ""
      · rw [if_pos huw]
        exact ⟨rfl, rfl⟩
      · rw [if_neg huw]
        by_cases he : p.expiresAfterSeconds < 0
        · rw [if_pos he]
          exact ⟨rfl, rfl⟩
        · have hr : p.rateLimitPerMinute < 0 := by
            cases hneg with
            | inl a => exact absurd a he
            | inr a => exact a
          rw [if_neg he, if_pos hr]
          exact ⟨rfl, rfl⟩
  · intro hu hw he hr hsz
    have huw : ¬(p.user = "" ∨ p.workflowID = "") := by
      intro hx
      cases hx with
      | inl a => exact hu a
      | inr a => exact hw a
    simp only [handleSessionClient, if_neg hm, hp]
    rw [if_neg (Nat.not_lt.mpr hsz), hd]
    dsimp only
    rw [if_neg huw, if_neg (by omega : ¬p.expiresAfterSeconds < 0),
      if_neg (by omega : ¬p.rateLimitPerMinute < 0)]
    cases hgw : gw ⟨p.user, p.workflowID,
        if p.expiresAfterSeconds = 0 then defaultExpiresAfterSecs else p.expiresAfterSeconds,
        createdAtAnchor,
        if p.rateLimitPerMinute = 0 then defaultRateLimitPerMin else p.rateLimitPerMinute⟩ with
    | error e => simp [hgw]
    | ok s => simp [hgw]

/-- Witness for C5: a negative expiry yields 400 with no gateway call, and
the all-zero body reaches the gateway. -/
theorem claim_C5_negative_rejected_witness :
    ((handleSessionClient "POST" bodyNegExpiry gwStubOk).response.status = 400 ∧
      (handleSessionClient "POST" bodyNegExpiry gwStubOk).gatewayCall = none) ∧
    (handleSessionClient "POST" bodyUserWf gwStubOk).gatewayCall ≠ none := by
  constructor
  · exact (claim_C5_negative_rejected bodyNegExpiry
      (JsonVal.obj [("user", JsonVal.str "u"), ("workflow_id", JsonVal.str "w"),
        ("expires_after_seconds", JsonVal.num "-1")]) []
      ⟨"u", "w", -1, 0⟩ gwStubOk rfl rfl).1 (Or.inl (by decide))
  · exact (claim_C5_negative_rejected bodyUserWf
      (JsonVal.obj [("user", JsonVal.str "u"), ("workflow_id", JsonVal.str "w")]) []
      ⟨"u", "w", 0, 0⟩ gwStubOk rfl rfl).2 (by decide) (by decide) (by decide) (by decide)
      (by decide)

/-- Claim C6 (amended): for every error value returned by the gateway, the
session handler responds with HTTP 500 and the fixed body
`failed to create session` plus a newline, independent of the error value —
upstream error detail is never echoed.  (As originally stated the claim
fails on error strings that happen to be substrings of the fixed generic
message itself — see the counterexample.) -/
theorem claim_C6_gateway_error_opaque (cfg : FixedSessionConfig) (body : List Char)
    (j : JsonVal) (rest : List Char) (p : SessionRequestUser) (e : String)
    (hp : parseOne body = some (j, rest))
    (hsz : body.length - rest.length ≤ maxRequestBodyBytes)
    (hd : decodeUser true j = some p) (hu : p.user ≠ "") :
    (handleSessionFixed cfg "POST" body (fun _ => Except.error e)).response =
      ⟨500, "failed to create session\n"⟩ := by
  have hm : ¬("POST" ≠ "POST") := by simp
  simp only [handleSessionFixed, if_neg hm, hp]
  rw [if_neg (Nat.not_lt.mpr hsz), hd]
  dsimp only
  rw [if_neg hu]
  rfl

/-- Witness for C6 (amended) at the upstream error `"boom"`. -/
theorem claim_C6_gateway_error_opaque_witness :
    (handleSessionFixed cfgDemo "POST" bodyUserOnly (fun _ => Except.error "boom")).response =
      ⟨500, "failed to create session\n"⟩ :=
  claim_C6_gateway_error_opaque cfgDemo bodyUserOnly
    (JsonVal.obj [("user", JsonVal.str "u")]) [] ⟨"u"⟩ "boom" rfl (by decide) rfl (by decide)

/-- Counterexample for C6 as stated: when the gateway's error string is
itself `"failed to create session"`, the 500 response body does contain the
gateway's error string (the fixed message coincides with it), so "the body
never contains the error string" is false as a universal statement. -/
theorem claim_C6_gateway_error_opaque_cex :
    (handleSessionFixed cfgDemo "POST" bodyUserOnly
        (fun _ => Except.error "failed to create session")).response.status = 500 ∧
    containsSub
      (handleSessionFixed cfgDemo "POST" bodyUserOnly
        (fun _ => Except.error "failed to create session")).response.body
      "failed to create session" = true :=
  ⟨rfl, by decide⟩

/-- Claim C7 (amended): a valid request for which the gateway succeeds with
secret `s` yields status 200 and a body that is exactly the JSON
serialization of the object with `client_secret` as its sole field,
followed by the newline `json.Encoder.Encode` always appends.  (As
originally stated — the body byte-for-byte equal to
`‹client_secret: s›` with nothing else — the claim fails because of that
trailing newline; see the counterexample.) -/
theorem claim_C7_success_body (cfg : FixedSessionConfig) (body : List Char)
    (j : JsonVal) (rest : List Char) (p : SessionRequestUser) (s : String)
    (hp : parseOne body = some (j, rest))
    (hsz : body.length - rest.length ≤ maxRequestBodyBytes)
    (hd : decodeUser true j = some p) (hu : p.user ≠ "") :
    (handleSessionFixed cfg "POST" body (fun _ => Except.ok s)).response =
      ⟨200, "\x7b\"client_secret\":" ++ goEncodeJsonString s ++ "\x7d\n"⟩ := by
  have hm : ¬("POST" ≠ "POST") := by simp
  simp only [handleSessionFixed, if_neg hm, hp]
  rw [if_neg (Nat.not_lt.mpr hsz), hd]
  dsimp only
  rw [if_neg hu]
  rfl

/-- Witness for C7 (amended) at the secret `"secret"`. -/
theorem claim_C7_success_body_witness :
    (handleSessionFixed cfgDemo "POST" bodyUserOnly (fun _ => Except.ok "secret")).response =
      ⟨200, "\x7b\"client_secret\":" ++ goEncodeJsonString "secret" ++ "\x7d\n"⟩ :=
  claim_C7_success_body cfgDemo bodyUserOnly (JsonVal.obj [("user", JsonVal.str "u")]) []
    ⟨"u"⟩ "secret" rfl (by decide) rfl (by decide)

/-- Counterexample for C7 as stated: with secret `"secret"` the status is
200 and the body is `‹client_secret: secret›` followed by a newline; it is
NOT byte-for-byte equal to the JSON object alone. -/
theorem claim_C7_success_body_cex :
    (handleSessionFixed cfgDemo "POST" bodyUserOnly gwStubOk).response.status = 200 ∧
    (handleSessionFixed cfgDemo "POST" bodyUserOnly gwStubOk).response.body =
      "\x7b\"client_secret\":\"secret\"\x7d\n" ∧
    (handleSessionFixed cfgDemo "POST" bodyUserOnly gwStubOk).response.body ≠
      "\x7b\"client_secret\":\"secret\"\x7d" :=
  ⟨rfl, rfl, by decide⟩

/-- Claim C8: whenever any of the three handler variants invokes the
session-creation gateway, the expiry anchor of the parameters is the fixed
`created_at` constant (`constant.CreatedAt("").Default()`); no input can
change it. -/
theorem claim_C8_anchor_fixed (cfg : FixedSessionConfig) (apiKey : Bool) (method : String)
    (body : List Char) (gw : SessionCreator) (pr : GatewayParams) :
    ((handleSessionFixed cfg method body gw).gatewayCall = some pr →
      pr.expiryAnchor = createdAtAnchor) ∧
    ((handleSessionClient method body gw).gatewayCall = some pr →
      pr.expiryAnchor = createdAtAnchor) ∧
    ((handleSessionLegacy apiKey method body gw).gatewayCall = some pr →
      pr.expiryAnchor = createdAtAnchor) := by
  refine ⟨?_, ?_, ?_⟩
  · intro h
    simp only [handleSessionFixed] at h
    repeat' split at h
    all_goals first
      | (simp_all; done)
      | (simp_all; subst h; rfl)
  · intro h
    simp only [handleSessionClient] at h
    repeat' split at h
    all_goals first
      | (simp_all; done)
      | (simp_all; subst h; rfl)
  · intro h
    simp only [handleSessionLegacy] at h
    repeat' split at h
    all_goals first
      | (simp_all; done)
      | (simp_all; subst h; rfl)

/-- Witness for C8: the concrete successful request carries the
`created_at` anchor, and the theorem recovers it from the gateway call. -/
theorem claim_C8_anchor_fixed_witness :
    (handleSessionFixed cfgDemo "POST" bodyUserOnly gwStubOk).gatewayCall =
      some ⟨"u", "wf", 1200, "created_at", 10⟩ ∧
    (⟨"u", "wf", 1200, "created_at", 10⟩ : GatewayParams).expiryAnchor = createdAtAnchor :=
  ⟨rfl, (claim_C8_anchor_fixed cfgDemo true "POST" bodyUserOnly gwStubOk
    ⟨"u", "wf", 1200, "created_at", 10⟩).1 rfl⟩

/-- Claim C9 (amended, part 1): a run of `'a'` characters inside a JSON
string is consumed verbatim up to the closing quote. -/
theorem parseStrAux_replicate : ∀ (n f : Nat), n ≤ f → ∀ (acc rest : List Char),
    parseStrAux (f + 1) acc (List.replicate n 'a' ++ '"' :: rest) =
      some (String.mk (acc.reverse ++ List.replicate n 'a'), rest) := by
  intro n
  induction n with
  | zero =>
    intro f _ acc rest
    simp [parseStrAux]
  | succ n ih =>
    intro f hf acc rest
    match f, hf with
    | f + 1, hf =>
      rw [List.replicate_succ, List.cons_append]
      simp only [parseStrAux]
      rw [if_neg (by decide), if_neg (by decide), if_neg (by decide)]
      rw [ih f (Nat.le_of_succ_le_succ hf) ('a' :: acc) rest]
      simp [List.replicate_succ]

theorem parseStr_replicate (n : Nat) (rest : List Char) :
    parseStr (List.replicate n 'a' ++ '"' :: rest) =
      some (String.mk (List.replicate n 'a'), rest) := by
  unfold parseStr
  have hlen : (List.replicate n 'a' ++ '"' :: rest).length = (n + rest.length) + 1 := by
    simp [List.length_append, List.length_replicate]
    omega
  rw [hlen]
  have h := parseStrAux_replicate n (n + rest.length + 1) (by omega) [] rest
  simpa using h

/-- The exact spelling `user` as a JSON string key parses to `"user"`. -/
theorem parseStr_user (x : List Char) :
    parseStr ('u' :: 's' :: 'e' :: 'r' :: '"' :: x) = some ("user", x) := by
  unfold parseStr
  simp only [List.length_cons]
  simp [parseStrAux]

/-- Claim C9 (amended, part 2): the parse of a `user`-only JSON object whose
user value is a run of `n` letters, computed symbolically in `n`. -/
theorem parseOne_userObj (n : Nat) :
    parseOne (Char.ofNat 123 :: '"' :: 'u' :: 's' :: 'e' :: 'r' :: '"' :: ':' :: '"' ::
        (List.replicate n 'a' ++ ['"', Char.ofNat 125])) =
      some (JsonVal.obj [("user", JsonVal.str (String.mk (List.replicate n 'a')))], []) := by
  have hcl : (Char.ofNat 123 :: '"' :: 'u' :: 's' :: 'e' :: 'r' :: '"' :: ':' :: '"' ::
      (List.replicate n 'a' ++ ['"', Char.ofNat 125])).length = n + 11 := by
    simp [List.length_append, List.length_replicate]
  have hfuel : fuelFor (Char.ofNat 123 :: '"' :: 'u' :: 's' :: 'e' :: 'r' :: '"' :: ':' :: '"' ::
      (List.replicate n 'a' ++ ['"', Char.ofNat 125])) = (2 * n + 26) + 4 := by
    simp only [fuelFor, hcl]
    omega
  rw [parseOne, hfuel]
  simp [parseVal, parseObjBody, parseMembers, skipWs, isJsonWs, parseStr_user,
    parseStr_replicate]

/-- Claim C9 (amended): the session handlers decode only the first JSON
value of the body; for every body that is a complete JSON object consumed
within the 4096-byte `MaxBytesReader` limit, appending arbitrary additional
bytes (a second JSON value, garbage, anything) does not change the
handler's behaviour at all — the trailing bytes are silently ignored, never
rejected.  (As originally stated — for every valid object, with no size
qualification — the claim fails: an object longer than 4096 bytes is
rejected by the body bound even though it is schema-conforming; see the
counterexample.) -/
theorem claim_C9_trailing_bytes_ignored (s t : List Char) (fs : List (String × JsonVal))
    (cfg : FixedSessionConfig) (gw gw2 : SessionCreator)
    (hp : parseOne s = some (JsonVal.obj fs, []))
    (_hsz : s.length ≤ maxRequestBodyBytes) :
    handleSessionFixed cfg "POST" (s ++ t) gw = handleSessionFixed cfg "POST" s gw ∧
    handleSessionClient "POST" (s ++ t) gw2 = handleSessionClient "POST" s gw2 := by
  have hpa := parseOne_obj_append t hp
  have hm : ¬("POST" ≠ "POST") := by simp
  have hlen : (s ++ t).length - t.length = s.length := by simp
  have hlen2 : s.length - ([] : List Char).length = s.length := by simp
  constructor
  · simp only [handleSessionFixed, if_neg hm, hp, hpa]
    rw [hlen, hlen2]
  · simp only [handleSessionClient, if_neg hm, hp, hpa]
    rw [hlen, hlen2]

/-- Witness for C9 (amended): appending junk after a small valid object
changes nothing; in particular the request still succeeds. -/
theorem claim_C9_trailing_bytes_ignored_witness :
    (handleSessionFixed cfgDemo "POST" (bodyUserOnly ++ " junk".data) gwStubOk =
      handleSessionFixed cfgDemo "POST" bodyUserOnly gwStubOk ∧
    handleSessionClient "POST" (bodyUserOnly ++ " junk".data) gwStubOk =
      handleSessionClient "POST" bodyUserOnly gwStubOk) ∧
    (handleSessionFixed cfgDemo "POST" bodyUserOnly gwStubOk).response.status = 200 :=
  ⟨claim_C9_trailing_bytes_ignored bodyUserOnly (" junk".data)
      [("user", JsonVal.str "u")] cfgDemo gwStubOk gwStubOk rfl (by decide),
    rfl⟩

/-- The 4097-byte schema-conforming object used to refute C9 as stated. -/
def bigBody : List Char :=
  Char.ofNat 123 :: '"' :: 'u' :: 's' :: 'e' :: 'r' :: '"' :: ':' :: '"' ::
    (List.replicate 4086 'a' ++ ['"', Char.ofNat 125])

/-- Counterexample for C9 as stated: `bigBody` is a valid, schema-conforming
JSON object (it parses completely, strict-decodes, and its user is
non-empty), but it is 4097 bytes long, so with a trailing byte appended the
handler rejects the request with 400 instead of accepting it — validation
does not succeed for every schema-conforming object followed by extra
bytes. -/
theorem claim_C9_trailing_bytes_ignored_cex :
    parseOne bigBody =
      some (JsonVal.obj
        [("user", JsonVal.str (String.mk (List.replicate 4086 'a')))], []) ∧
    decodeUser true
        (JsonVal.obj [("user", JsonVal.str (String.mk (List.replicate 4086 'a')))]) =
      some ⟨String.mk (List.replicate 4086 'a')⟩ ∧
    String.mk (List.replicate 4086 'a') ≠ "" ∧
    (handleSessionFixed cfgDemo "POST" (bigBody ++ ['x']) gwStubOk).response.status = 400 ∧
    (handleSessionFixed cfgDemo "POST" (bigBody ++ ['x']) gwStubOk).gatewayCall = none := by
  have hp := parseOne_userObj 4086
  have hpa := parseOne_obj_append ['x'] hp
  have hm : ¬("POST" ≠ "POST") := by simp
  refine ⟨hp, rfl, ?_, ?_, ?_⟩
  · intro hz
    have h : List.replicate 4086 'a' = [] := congrArg String.data hz
    have h2 := congrArg List.length h
    rw [List.length_replicate, List.length_nil] at h2
    omega
  all_goals
    unfold bigBody
  all_goals
    have hbig : maxRequestBodyBytes <
        ((Char.ofNat 123 :: '"' :: 'u' :: 's' :: 'e' :: 'r' :: '"' :: ':' :: '"' ::
          (List.replicate 4086 'a' ++ ['"', Char.ofNat 125])) ++ ['x']).length -
          (['x'] : List Char).length := by
      simp only [List.length_append, List.length_cons, List.length_replicate,
        List.length_singleton, maxRequestBodyBytes]
      omega
  · simp only [handleSessionFixed, if_neg hm, hpa]
    rw [if_pos hbig]
    rfl
  · simp only [handleSessionFixed, if_neg hm, hpa]
    rw [if_pos hbig]

/-- Claim C2: for every request carrying an Origin header whose value is
not in the configured allow-set, with wildcard not configured, the CORS
middleware responds with HTTP 403, sets no CORS headers, and never invokes
the wrapped handler — for every method, so for both simple and preflight
(OPTIONS) requests. -/
theorem claim_C2_disallowed_origin_rejected (p : CORSPolicy) (method o : String)
    (innerStatus : Nat) (hw : p.wildcard = false) (ho : o ∉ p.allowedOrigins) :
    withCORS p method (some o) innerStatus = ⟨403, none, false, none, none, none, false⟩ := by
  simp [withCORS, hw, ho]

/-- Witness for C2: the policy of the repository's CORS test
(`newCORSPolicy "https://app.example.com"`) rejects the test's evil origin
with 403 and an uninvoked handler, for a simple GET and a preflight
OPTIONS alike. -/
theorem claim_C2_disallowed_origin_rejected_witness :
    ((newCORSPolicy "https://app.example.com").wildcard = false ∧
      "https://evil.example.com" ∉ (newCORSPolicy "https://app.example.com").allowedOrigins) ∧
    withCORS (newCORSPolicy "https://app.example.com") "GET"
        (some "https://evil.example.com") 200 =
      ⟨403, none, false, none, none, none, false⟩ ∧
    withCORS (newCORSPolicy "https://app.example.com") "OPTIONS"
        (some "https://evil.example.com") 200 =
      ⟨403, none, false, none, none, none, false⟩ :=
  ⟨⟨by decide, by decide⟩,
    claim_C2_disallowed_origin_rejected (newCORSPolicy "https://app.example.com")
      "GET" "https://evil.example.com" 200 (by decide) (by decide),
    claim_C2_disallowed_origin_rejected (newCORSPolicy "https://app.example.com")
      "OPTIONS" "https://evil.example.com" 200 (by decide) (by decide)⟩

/-- Claim C3: for every OPTIONS request with an Origin the policy allows
(wildcard configured, or the origin in the allow-set), the middleware
answers 204 with Access-Control-Allow-Methods "GET, POST, OPTIONS", a
non-empty Access-Control-Allow-Headers, Access-Control-Max-Age "600" and
an Access-Control-Allow-Origin header, without invoking the wrapped
handler. -/
theorem claim_C3_preflight_headers (p : CORSPolicy) (o : String) (innerStatus : Nat)
    (hallow : p.wildcard = true ∨ o ∈ p.allowedOrigins) :
    (withCORS p "OPTIONS" (some o) innerStatus).status = 204 ∧
    (withCORS p "OPTIONS" (some o) innerStatus).allowMethods = some "GET, POST, OPTIONS" ∧
    (withCORS p "OPTIONS" (some o) innerStatus).allowHeaders = some "Content-Type, Authorization" ∧
    ("Content-Type, Authorization" : String) ≠ "" ∧
    (withCORS p "OPTIONS" (some o) innerStatus).maxAge = some "600" ∧
    (withCORS p "OPTIONS" (some o) innerStatus).allowOrigin.isSome = true ∧
    (withCORS p "OPTIONS" (some o) innerStatus).handlerInvoked = false := by
  have hne : ("Content-Type, Authorization" : String) ≠ "" := by decide
  cases hpw : p.wildcard
  · have hmem : o ∈ p.allowedOrigins := by
      cases hallow with
      | inl h => rw [hpw] at h; exact absurd h (by simp)
      | inr h => exact h
    simp [withCORS, hpw, hmem, corsAllowMethodsValue, corsAllowHeadersValue, hne]
  · simp [withCORS, hpw, corsAllowMethodsValue, corsAllowHeadersValue, hne]

/-- Witness for C3: under the wildcard policy of the repository's CORS
test (`newCORSPolicy "*"`), a preflight from an arbitrary origin gets the
full 204 preflight answer. -/
theorem claim_C3_preflight_headers_witness :
    ((newCORSPolicy "*").wildcard = true ∨
      "https://app.example.com" ∈ (newCORSPolicy "*").allowedOrigins) ∧
    ((withCORS (newCORSPolicy "*") "OPTIONS" (some "https://app.example.com") 200).status = 204 ∧
    (withCORS (newCORSPolicy "*") "OPTIONS" (some "https://app.example.com") 200).allowMethods =
      some "GET, POST, OPTIONS" ∧
    (withCORS (newCORSPolicy "*") "OPTIONS" (some "https://app.example.com") 200).allowHeaders =
      some "Content-Type, Authorization" ∧
    ("Content-Type, Authorization" : String) ≠ "" ∧
    (withCORS (newCORSPolicy "*") "OPTIONS" (some "https://app.example.com") 200).maxAge =
      some "600" ∧
    (withCORS (newCORSPolicy "*") "OPTIONS" (some "https://app.example.com") 200).allowOrigin.isSome =
      true ∧
    (withCORS (newCORSPolicy "*") "OPTIONS" (some "https://app.example.com") 200).handlerInvoked =
      false) :=
  ⟨Or.inl (by decide),
    claim_C3_preflight_headers (newCORSPolicy "*") "https://app.example.com" 200
      (Or.inl (by decide))⟩
